import Mathlib

/-!
TortureTest: RAM / flash self-test firmware (`src/main.c`).

A shallow embedding of `main.c`.  The hardware under test is the environment of
the program: the heap buffer handed out by `malloc`, the external flash behind
`flash_range_erase` / `flash_range_program` / the XIP window, the LED and the
timer.  Hardware is modelled by explicit device records (`RamDevice`,
`FlashDevice`) over an arbitrary state type, so that faulty parts are inputs of
the model as well as faithful ones.  Every function returns, next to its C
result, the list of externally visible events it performs, in program order.

Machine integers are naturals; the two `uint32_t` variables of `flash_test`
are reduced modulo `2 ^ 32` at every update, and every `uint8_t` store or load
is reduced modulo `2 ^ 8`.  `fflush(stdout)` is not recorded.  The `%.2f`
renderings of `printf` are not modelled: a log event carries the integer
operands from which the printed text is computed.
-/

namespace TortureTest

/-! ## Constants (`main.c` lines 12-16) -/

def LED_PIN : Nat := 25
def MAX_FLASH_SIZE : Nat := 16 * 1024 * 1024
def FLASH_TARGET_OFFSET : Nat := 1 * 1024 * 1024
def SPI_FLASH_SECTOR_SIZE : Nat := 4 * 1024
def TOTAL_RAM_TEST_SIZE : Nat := 64 * 1024

/-- Number of values of a `uint32_t`. -/
def UINT32_RANGE : Nat := 2 ^ 32

/-- Number of values of a `uint8_t`. -/
def UINT8_RANGE : Nat := 2 ^ 8

/-! ## Events -/

/-- The `printf` call sites of `main.c`, each with the integer operands it formats. -/
inductive Msg where
  | waiting_for_usb
  | mem_start
  | mem_alloc_failed
  | mem_corruption (i : Nat)
  | mem_passed
  | flash_start
  | flash_testing (addr : Nat)
  | flash_wrote (addr : Nat)
  | flash_corruption (addr : Nat) (i : Nat)
  | flash_detected_size (tested_size : Nat)
  | flash_verified (tested_size : Nat)
  | flash_passed (tested_size : Nat)
  | torture_start
  | mem_failed_halt
  | flash_failed_halt
  | torture_complete
  deriving DecidableEq, Repr

/-- Externally visible actions of the firmware. -/
inductive Event where
  | printf (m : Msg)
  | stdio_init_all
  | gpio_init (pin : Nat)
  | gpio_set_dir (pin : Nat) (out : Bool)
  | gpio_put (pin : Nat) (value : Nat)
  | sleep_ms (ms : Nat)
  | malloc (size : Nat)
  | free
  | store (i : Nat) (v : Nat)
  | load (i : Nat)
  | flash_range_erase (addr : Nat) (count : Nat)
  | flash_range_program (addr : Nat) (data : List Nat) (count : Nat)
  | xip_read (addr : Nat) (count : Nat)
  | call_continuous_blink (blinks : Int)
  deriving DecidableEq, Repr

/-! ## Hardware models -/

/-- The heap buffer `test_memory` as a device: `store s i v` is the effect of
`test_memory[i] = v`, `load s i` the value obtained by reading `test_memory[i]`. -/
structure RamDevice (σ : Type) where
  store : σ → Nat → Nat → σ
  load : σ → Nat → Nat

/-- The external flash: `erase s offs count` and `program s offs data count` are the
effects of `flash_range_erase` and `flash_range_program`; `read s a` is the byte seen
at `XIP_BASE + a` through the memory-mapped window. -/
structure FlashDevice (σ : Type) where
  erase : σ → Nat → Nat → σ
  program : σ → Nat → List Nat → Nat → σ
  read : σ → Nat → Nat

/-- A fault-free RAM: the state is the content of the buffer, index by index. -/
def idealRam : RamDevice (Nat → Nat) where
  store := fun s i v => fun j => if j = i then v else s j
  load := fun s i => s i

/-- A RAM whose cell `k` always reads back `v`, whatever was stored; all other cells
are fault-free. -/
def stuckRam (k v : Nat) : RamDevice (Nat → Nat) where
  store := fun s i x => fun j => if j = i then x else s j
  load := fun s i => if i = k then v else s i

/-! ## `continuous_blink` (lines 19-29) -/

/-- The inner `for (int i = 0; i < blinks; i++)` loop of `continuous_blink`, from
counter value `i`. -/
def blink_for (blinks : Int) (i : Int) : List Event :=
  if i < blinks then
    [Event.gpio_put LED_PIN 1, Event.sleep_ms 250,
     Event.gpio_put LED_PIN 0, Event.sleep_ms 250] ++ blink_for blinks (i + 1)
  else []
termination_by (blinks - i).toNat
decreasing_by omega

/-- The events of the first `cycles` iterations of the `while (1)` loop of
`continuous_blink(blinks)`.  The loop has no exit, so the function never returns and
its behaviour is the limit of these traces. -/
def continuous_blink (blinks : Int) : Nat → List Event
  | 0 => []
  | cycles + 1 =>
      blink_for blinks 0 ++ [Event.sleep_ms 1000] ++ continuous_blink blinks cycles

/-! ## `wait_for_usb` (lines 32-38) -/

/-- The loop of `wait_for_usb`, from counter value `i`. -/
def wait_for_usb_loop (i : Nat) : List Event :=
  if i < 10 then
    [Event.printf Msg.waiting_for_usb, Event.sleep_ms 500] ++ wait_for_usb_loop (i + 1)
  else []
termination_by 10 - i

def wait_for_usb : List Event := wait_for_usb_loop 0

/-! ## `memory_test` (lines 41-71) -/

/-- The write loop (lines 53-55) from index `i`: the final buffer state and the stores
performed.  The stored value is `i % 256` converted to `uint8_t`. -/
def mem_write_loop {σ : Type} (ram : RamDevice σ) (s : σ) (i : Nat) : σ × List Event :=
  if i < TOTAL_RAM_TEST_SIZE then
    let v := (i % 256) % UINT8_RANGE
    let r := mem_write_loop ram (ram.store s i v) (i + 1)
    (r.1, Event.store i v :: r.2)
  else (s, [])
termination_by TOTAL_RAM_TEST_SIZE - i

/-- The verify loop (lines 58-65) and the epilogue (lines 67-70) from index `i`. -/
def mem_verify_loop {σ : Type} (ram : RamDevice σ) (s : σ) (i : Nat) : Bool × List Event :=
  if i < TOTAL_RAM_TEST_SIZE then
    if ram.load s i % UINT8_RANGE ≠ i % 256 then
      (false, [Event.load i, Event.printf (Msg.mem_corruption i), Event.free])
    else
      let r := mem_verify_loop ram s (i + 1)
      (r.1, Event.load i :: r.2)
  else (true, [Event.printf Msg.mem_passed, Event.free])
termination_by TOTAL_RAM_TEST_SIZE - i

/-- The function `memory_test`.  `heap` is the outcome of `malloc(TOTAL_RAM_TEST_SIZE)`:
`none` for a null pointer, `some s` for a buffer in (uninitialised) state `s`. -/
def memory_test {σ : Type} (ram : RamDevice σ) (heap : Option σ) : Bool × List Event :=
  match heap with
  | none =>
      (false, [Event.printf Msg.mem_start, Event.malloc TOTAL_RAM_TEST_SIZE,
               Event.printf Msg.mem_alloc_failed])
  | some s =>
      let w := mem_write_loop ram s 0
      let v := mem_verify_loop ram w.1 0
      (v.1, [Event.printf Msg.mem_start, Event.malloc TOTAL_RAM_TEST_SIZE] ++ w.2 ++ v.2)

/-! ## `flash_test` (lines 74-114) -/

/-- The fill loop (lines 88-90) from index `i`: `test_data[i] = i % 256`, the value
being converted to `uint8_t`.  Local arrays are functions from index to byte. -/
def fill_loop (test_data : Nat → Nat) (i : Nat) : Nat → Nat :=
  if i < SPI_FLASH_SECTOR_SIZE then
    fill_loop (fun j => if j = i then (i % 256) % UINT8_RANGE else test_data j) (i + 1)
  else test_data
termination_by SPI_FLASH_SECTOR_SIZE - i

/-- The first `count` bytes of an array, as passed to a routine taking pointer and length. -/
def bytes (buf : Nat → Nat) (count : Nat) : List Nat := (List.range count).map buf

/-- The call `memcpy(readback, (void*)(XIP_BASE + addr), SPI_FLASH_SECTOR_SIZE)` (line 96):
the new content of `readback` when the flash is in state `s`. -/
def xip_memcpy {σ : Type} (dev : FlashDevice σ) (s : σ) (addr : Nat) (readback : Nat → Nat) :
    Nat → Nat :=
  fun i => if i < SPI_FLASH_SECTOR_SIZE then dev.read s (addr + i) % UINT8_RANGE else readback i

/-- The compare loop (lines 97-104) from index `i`: the index at which it executes the
failure branch, or `none` when it runs to completion. -/
def compare_loop (readback test_data : Nat → Nat) (i : Nat) : Option Nat :=
  if i < SPI_FLASH_SECTOR_SIZE then
    if readback i ≠ test_data i then some i
    else compare_loop readback test_data (i + 1)
  else none
termination_by SPI_FLASH_SECTOR_SIZE - i

/-- The sector loop (lines 82-109) and the epilogue (lines 111-113), entered with cursor
`addr`, accumulator `tested_size` and the current contents of the two local arrays. -/
def flash_loop {σ : Type} (dev : FlashDevice σ) (s : σ) (addr tested_size : Nat)
    (test_data readback : Nat → Nat) : Bool × List Event :=
  if addr < MAX_FLASH_SIZE then
    let s1 := dev.erase s addr SPI_FLASH_SECTOR_SIZE
    let td := fill_loop test_data 0
    let data := bytes td SPI_FLASH_SECTOR_SIZE
    let s2 := dev.program s1 addr data SPI_FLASH_SECTOR_SIZE
    let rb := xip_memcpy dev s2 addr readback
    let ops := [Event.printf (Msg.flash_testing addr),
                Event.flash_range_erase addr SPI_FLASH_SECTOR_SIZE,
                Event.flash_range_program addr data SPI_FLASH_SECTOR_SIZE,
                Event.printf (Msg.flash_wrote addr),
                Event.xip_read addr SPI_FLASH_SECTOR_SIZE]
    match compare_loop rb td 0 with
    | some i =>
        (false, ops ++ [Event.printf (Msg.flash_corruption addr i),
                        Event.printf (Msg.flash_detected_size tested_size)])
    | none =>
        let ts := (tested_size + SPI_FLASH_SECTOR_SIZE) % UINT32_RANGE
        let r := flash_loop dev s2 ((addr + SPI_FLASH_SECTOR_SIZE) % UINT32_RANGE) ts td rb
        (r.1, ops ++ [Event.printf (Msg.flash_verified ts)] ++ r.2)
  else (true, [Event.printf (Msg.flash_passed tested_size)])
termination_by MAX_FLASH_SIZE - addr
decreasing_by
  simp only [MAX_FLASH_SIZE, SPI_FLASH_SECTOR_SIZE, UINT32_RANGE] at *
  omega

/-- The function `flash_test`.  `s` is the state of the flash on entry; `test_data0` and
`readback0` are the (uninitialised) contents of the two local arrays. -/
def flash_test {σ : Type} (dev : FlashDevice σ) (s : σ) (test_data0 readback0 : Nat → Nat) :
    Bool × List Event :=
  let r := flash_loop dev s FLASH_TARGET_OFFSET 0 test_data0 readback0
  (r.1, Event.printf Msg.flash_start :: r.2)

/-! ## `main` (lines 116-143) -/

/-- The final `if` / `else if` / `else` of `main` (lines 130-142) followed by the first
`cycles` iterations of the blink loop it enters. -/
def report (mem_result flash_result : Bool) (cycles : Nat) : List Event :=
  if !mem_result then
    [Event.printf Msg.mem_failed_halt, Event.call_continuous_blink 1]
      ++ continuous_blink 1 cycles
  else if !flash_result then
    [Event.printf Msg.flash_failed_halt, Event.call_continuous_blink 2]
      ++ continuous_blink 2 cycles
  else
    [Event.printf Msg.torture_complete, Event.call_continuous_blink 3]
      ++ continuous_blink 3 cycles

/-- The function `main`, observed up to the end of the first `cycles` blink cycles. -/
def main {σ τ : Type} (ram : RamDevice σ) (heap : Option σ) (dev : FlashDevice τ) (s : τ)
    (test_data0 readback0 : Nat → Nat) (cycles : Nat) : List Event :=
  let mem_result := memory_test ram heap
  let flash_result := flash_test dev s test_data0 readback0
  [Event.stdio_init_all] ++ wait_for_usb
    ++ [Event.gpio_init LED_PIN, Event.gpio_set_dir LED_PIN true,
        Event.printf Msg.torture_start]
    ++ mem_result.2 ++ flash_result.2 ++ report mem_result.1 flash_result.1 cycles

/-! ## Observations on traces and on the sweep -/

/-- The pattern the firmware writes: byte `i` is `i mod 256`. -/
def pattern (count : Nat) : List Nat := (List.range count).map (fun i => i % 256)

/-- Address of sweep sector `k`. -/
def sector_addr (k : Nat) : Nat := FLASH_TARGET_OFFSET + k * SPI_FLASH_SECTOR_SIZE

/-- Number of sectors between `FLASH_TARGET_OFFSET` and `MAX_FLASH_SIZE`. -/
def SWEEP_SECTORS : Nat := (MAX_FLASH_SIZE - FLASH_TARGET_OFFSET) / SPI_FLASH_SECTOR_SIZE

/-- State of the flash after sweep sectors `0 .. k-1` have each been erased and
programmed with the pattern, starting from state `s`. -/
def sweep_state {σ : Type} (dev : FlashDevice σ) (s : σ) : Nat → σ
  | 0 => s
  | k + 1 =>
      dev.program (dev.erase (sweep_state dev s k) (sector_addr k) SPI_FLASH_SECTOR_SIZE)
        (sector_addr k) (pattern SPI_FLASH_SECTOR_SIZE) SPI_FLASH_SECTOR_SIZE

/-- Byte `i` of the readback of sweep sector `k`: what the XIP window shows right after
that sector has been erased and programmed. -/
def sector_readback {σ : Type} (dev : FlashDevice σ) (s : σ) (k i : Nat) : Nat :=
  dev.read (sweep_state dev s (k + 1)) (sector_addr k + i) % UINT8_RANGE

/-- The readback of sweep sector `k` equals the programmed pattern. -/
def sector_matches {σ : Type} (dev : FlashDevice σ) (s : σ) (k : Nat) : Prop :=
  ∀ i, i < SPI_FLASH_SECTOR_SIZE → sector_readback dev s k i = i % 256

/-- Sweep sectors `0 .. N-1` read back correctly and the readback of sector `N` first
differs from the pattern at byte `j`. -/
def first_mismatch {σ : Type} (dev : FlashDevice σ) (s : σ) (N j : Nat) : Prop :=
  (∀ k, k < N → sector_matches dev s k) ∧
  (∀ i, i < j → sector_readback dev s N i = i % 256) ∧
  sector_readback dev s N j ≠ j % 256

/-- Events of one sector iteration whose readback matched; `ts` is the accumulator
after the increment. -/
def sector_ok_events (addr ts : Nat) : List Event :=
  [Event.printf (Msg.flash_testing addr),
   Event.flash_range_erase addr SPI_FLASH_SECTOR_SIZE,
   Event.flash_range_program addr (pattern SPI_FLASH_SECTOR_SIZE) SPI_FLASH_SECTOR_SIZE,
   Event.printf (Msg.flash_wrote addr),
   Event.xip_read addr SPI_FLASH_SECTOR_SIZE,
   Event.printf (Msg.flash_verified ts)]

/-- Events of a sector iteration whose readback first mismatched at byte `j`; `ts` is
the accumulator on entry to the iteration. -/
def sector_fail_events (addr ts j : Nat) : List Event :=
  [Event.printf (Msg.flash_testing addr),
   Event.flash_range_erase addr SPI_FLASH_SECTOR_SIZE,
   Event.flash_range_program addr (pattern SPI_FLASH_SECTOR_SIZE) SPI_FLASH_SECTOR_SIZE,
   Event.printf (Msg.flash_wrote addr),
   Event.xip_read addr SPI_FLASH_SECTOR_SIZE,
   Event.printf (Msg.flash_corruption addr j),
   Event.printf (Msg.flash_detected_size ts)]

/-- Events of `d` consecutive matching sector iterations starting at sweep sector `k`. -/
def sweep_ok_events (k : Nat) : Nat → List Event
  | 0 => []
  | d + 1 =>
      sector_ok_events (sector_addr k) ((k + 1) * SPI_FLASH_SECTOR_SIZE)
        ++ sweep_ok_events (k + 1) d

/-- The flash operations of a trace: erase, program and XIP read events, in order. -/
def flash_ops : List Event → List Event
  | [] => []
  | Event.flash_range_erase a c :: t => Event.flash_range_erase a c :: flash_ops t
  | Event.flash_range_program a d c :: t => Event.flash_range_program a d c :: flash_ops t
  | Event.xip_read a c :: t => Event.xip_read a c :: flash_ops t
  | _ :: t => flash_ops t

/-- The three flash operations of sweep sectors `k .. k+d-1`, sector by sector. -/
def sweep_ops (k : Nat) : Nat → List Event
  | 0 => []
  | d + 1 =>
      [Event.flash_range_erase (sector_addr k) SPI_FLASH_SECTOR_SIZE,
       Event.flash_range_program (sector_addr k) (pattern SPI_FLASH_SECTOR_SIZE)
         SPI_FLASH_SECTOR_SIZE,
       Event.xip_read (sector_addr k) SPI_FLASH_SECTOR_SIZE] ++ sweep_ops (k + 1) d

/-- The addresses given to the flash operations of a trace, in order. -/
def flash_addrs : List Event → List Nat
  | [] => []
  | Event.flash_range_erase a _ :: t => a :: flash_addrs t
  | Event.flash_range_program a _ _ :: t => a :: flash_addrs t
  | Event.xip_read a _ :: t => a :: flash_addrs t
  | _ :: t => flash_addrs t

/-- The addresses given to `flash_range_erase` in a trace, in order. -/
def erase_addrs : List Event → List Nat
  | [] => []
  | Event.flash_range_erase a _ :: t => a :: erase_addrs t
  | _ :: t => erase_addrs t

/-- The data buffers given to `flash_range_program` in a trace, in order. -/
def program_data : List Event → List (List Nat)
  | [] => []
  | Event.flash_range_program _ d _ :: t => d :: program_data t
  | _ :: t => program_data t

/-- The arguments of the calls of `continuous_blink` in a trace, in order. -/
def blink_calls : List Event → List Int
  | [] => []
  | Event.call_continuous_blink n :: t => n :: blink_calls t
  | _ :: t => blink_calls t

/-- One pulse of the LED: on, 250 ms, off, 250 ms. -/
def pulse : List Event :=
  [Event.gpio_put LED_PIN 1, Event.sleep_ms 250, Event.gpio_put LED_PIN 0, Event.sleep_ms 250]

/-- The events `n` pulses long. -/
def pulses : Nat → List Event
  | 0 => []
  | n + 1 => pulse ++ pulses n

/-- Cycle number `k` (from 0) of `continuous_blink blinks`: what iteration `k` of the
`while (1)` loop adds to the trace. -/
def blink_cycle (blinks : Int) (k : Nat) : List Event :=
  (continuous_blink blinks (k + 1)).drop (continuous_blink blinks k).length

/-- The store, load and free events of a trace: every use of the heap buffer. -/
def ram_events : List Event → List Event
  | [] => []
  | Event.store i v :: t => Event.store i v :: ram_events t
  | Event.load i :: t => Event.load i :: ram_events t
  | Event.free :: t => Event.free :: ram_events t
  | _ :: t => ram_events t

/-- The buffer indices read (compared) in a trace, in order. -/
def loaded_indices : List Event → List Nat
  | [] => []
  | Event.load i :: t => i :: loaded_indices t
  | _ :: t => loaded_indices t

/-- The offsets named by the memory-corruption log lines of a trace, in order. -/
def mem_corruption_logs : List Event → List Nat
  | [] => []
  | Event.printf (Msg.mem_corruption i) :: t => i :: mem_corruption_logs t
  | _ :: t => mem_corruption_logs t

/-- The (address, offset) pairs named by the flash-corruption log lines of a trace. -/
def flash_corruption_logs : List Event → List (Nat × Nat)
  | [] => []
  | Event.printf (Msg.flash_corruption a i) :: t => (a, i) :: flash_corruption_logs t
  | _ :: t => flash_corruption_logs t

/-- The values of `tested_size` given to the "Detected actual flash size" log lines of
a trace. -/
def detected_size_logs : List Event → List Nat
  | [] => []
  | Event.printf (Msg.flash_detected_size ts) :: t => ts :: detected_size_logs t
  | _ :: t => detected_size_logs t

/-! ## Flash parts -/

/-- A NOR flash array with address decoder `decode`: the state gives the content of
every cell, erase sets the addressed cells to `0xFF`, program can only clear bits
(the cell becomes the bitwise AND of its content and the data byte), and the XIP
window reads the addressed cell. -/
def norFlash (decode : Nat → Nat) : FlashDevice (Nat → Nat) where
  erase := fun s offs count =>
    (List.range count).foldl
      (fun st i => fun c => if c = decode (offs + i) then 0xFF else st c) s
  program := fun s offs data count =>
    (List.range count).foldl
      (fun st i => fun c => if c = decode (offs + i) then st c &&& data.getD i 0xFF else st c) s
  read := fun s a => s (decode a)

/-- A flash part of `size` bytes on which only the address modulo `size` is decoded:
accesses beyond the physical size alias the cells at the start of the array. -/
def wrapFlash (size : Nat) : FlashDevice (Nat → Nat) := norFlash (fun a => a % size)

/-- A flash part that decodes every address, with the cell at address `bad` reading
as `v` whatever it holds. -/
def stuckFlash (bad v : Nat) : FlashDevice (Nat → Nat) where
  erase := (norFlash id).erase
  program := (norFlash id).program
  read := fun s a => if a = bad then v else (norFlash id).read s a

/-! ## Lemmas: `continuous_blink` -/

theorem blink_for_eq (blinks : Int) :
    ∀ (n : Nat) (i : Int), (blinks - i).toNat = n → blink_for blinks i = pulses n := by
  intro n
  induction n with
  | zero =>
      intro i h
      rw [blink_for]
      have : ¬ i < blinks := by omega
      simp [this, pulses]
  | succ n ih =>
      intro i h
      rw [blink_for]
      have hlt : i < blinks := by omega
      have hn : (blinks - (i + 1)).toNat = n := by omega
      simp only [hlt, if_true, ih (i + 1) hn, pulses, pulse]

theorem continuous_blink_succ (blinks : Int) (k : Nat) :
    continuous_blink blinks (k + 1)
      = continuous_blink blinks k ++ (blink_for blinks 0 ++ [Event.sleep_ms 1000]) := by
  induction k with
  | zero => simp [continuous_blink]
  | succ k ih =>
      have h : ∀ m, continuous_blink blinks (m + 1)
          = (blink_for blinks 0 ++ [Event.sleep_ms 1000]) ++ continuous_blink blinks m :=
        fun _ => rfl
      calc continuous_blink blinks (k + 1 + 1)
          = (blink_for blinks 0 ++ [Event.sleep_ms 1000]) ++ continuous_blink blinks (k + 1) :=
            h (k + 1)
        _ = ((blink_for blinks 0 ++ [Event.sleep_ms 1000]) ++ continuous_blink blinks k)
              ++ (blink_for blinks 0 ++ [Event.sleep_ms 1000]) := by
            rw [ih]; simp only [List.append_assoc]
        _ = continuous_blink blinks (k + 1) ++ (blink_for blinks 0 ++ [Event.sleep_ms 1000]) := by
            rw [← h k]

theorem blink_cycle_eq (blinks : Int) (k : Nat) :
    blink_cycle blinks k = pulses blinks.toNat ++ [Event.sleep_ms 1000] := by
  unfold blink_cycle
  rw [continuous_blink_succ, List.drop_left, blink_for_eq blinks blinks.toNat 0 (by simp)]

/-! ## Lemmas: `memory_test` -/

theorem mem_write_loop_trace {σ : Type} (ram : RamDevice σ) :
    ∀ (n i : Nat) (s : σ), i + n = TOTAL_RAM_TEST_SIZE →
      (mem_write_loop ram s i).2
        = (List.range' i n).map (fun j => Event.store j (j % 256)) := by
  intro n
  induction n with
  | zero =>
      intro i s h
      rw [mem_write_loop]
      simp [show ¬ i < TOTAL_RAM_TEST_SIZE by omega]
  | succ n ih =>
      intro i s h
      rw [mem_write_loop]
      have hlt : i < TOTAL_RAM_TEST_SIZE := by omega
      simp only [hlt, if_true]
      rw [ih (i + 1) _ (by omega)]
      simp [List.range'_succ, UINT8_RANGE]

theorem mem_write_loop_state (ram : RamDevice (Nat → Nat))
    (hst : ∀ s i v, ram.store s i v = fun j => if j = i then v else s j) :
    ∀ (n i : Nat) (s : Nat → Nat), i + n = TOTAL_RAM_TEST_SIZE → ∀ j,
      (mem_write_loop ram s i).1 j
        = if i ≤ j ∧ j < TOTAL_RAM_TEST_SIZE then j % 256 else s j := by
  intro n
  induction n with
  | zero =>
      intro i s h j
      rw [mem_write_loop]
      have h1 : ¬ i < TOTAL_RAM_TEST_SIZE := by omega
      have h2 : ¬ (i ≤ j ∧ j < TOTAL_RAM_TEST_SIZE) := by omega
      simp [h1, h2]
  | succ n ih =>
      intro i s h j
      rw [mem_write_loop]
      have hlt : i < TOTAL_RAM_TEST_SIZE := by omega
      simp only [hlt, if_true]
      rw [ih (i + 1) _ (by omega) j, hst]
      by_cases hji : j = i
      · subst hji
        have h1 : ¬ (j + 1 ≤ j ∧ j < TOTAL_RAM_TEST_SIZE) := by omega
        have h2 : j ≤ j ∧ j < TOTAL_RAM_TEST_SIZE := ⟨le_refl _, hlt⟩
        simp [h1, h2, UINT8_RANGE]
      · by_cases hc : i ≤ j ∧ j < TOTAL_RAM_TEST_SIZE
        · have h1 : i + 1 ≤ j ∧ j < TOTAL_RAM_TEST_SIZE := by omega
          simp [h1, hc]
        · have h1 : ¬ (i + 1 ≤ j ∧ j < TOTAL_RAM_TEST_SIZE) := by omega
          simp [h1, hc, hji]

theorem mem_verify_loop_fail {σ : Type} (ram : RamDevice σ) (s : σ) (k : Nat)
    (hk : k < TOTAL_RAM_TEST_SIZE) (hbad : ram.load s k % 256 ≠ k % 256) :
    ∀ (n i : Nat), i + n = k → (∀ j, i ≤ j → j < k → ram.load s j % 256 = j % 256) →
      mem_verify_loop ram s i
        = (false, (List.range' i n).map Event.load
            ++ [Event.load k, Event.printf (Msg.mem_corruption k), Event.free]) := by
  intro n
  induction n with
  | zero =>
      intro i h _
      have hik : i = k := by omega
      subst hik
      rw [mem_verify_loop]
      simp [hk, UINT8_RANGE, hbad]
  | succ n ih =>
      intro i h hok
      rw [mem_verify_loop]
      have hlt : i < TOTAL_RAM_TEST_SIZE := by omega
      have hi : ram.load s i % 256 = i % 256 := hok i (le_refl _) (by omega)
      rw [ih (i + 1) (by omega) (fun j h1 h2 => hok j (by omega) h2)]
      simp [hlt, UINT8_RANGE, hi, List.range'_succ]

theorem mem_verify_loop_pass {σ : Type} (ram : RamDevice σ) (s : σ) :
    ∀ (n i : Nat), i + n = TOTAL_RAM_TEST_SIZE →
      (∀ j, i ≤ j → j < TOTAL_RAM_TEST_SIZE → ram.load s j % 256 = j % 256) →
      mem_verify_loop ram s i
        = (true, (List.range' i n).map Event.load
            ++ [Event.printf Msg.mem_passed, Event.free]) := by
  intro n
  induction n with
  | zero =>
      intro i h _
      rw [mem_verify_loop]
      simp [show ¬ i < TOTAL_RAM_TEST_SIZE by omega]
  | succ n ih =>
      intro i h hok
      rw [mem_verify_loop]
      have hlt : i < TOTAL_RAM_TEST_SIZE := by omega
      have hi : ram.load s i % 256 = i % 256 := hok i (le_refl _) hlt
      rw [ih (i + 1) (by omega) (fun j h1 h2 => hok j (by omega) h2)]
      simp [hlt, UINT8_RANGE, hi, List.range'_succ]

theorem ram_events_append (a b : List Event) :
    ram_events (a ++ b) = ram_events a ++ ram_events b := by
  induction a with
  | nil => rfl
  | cons e t ih => cases e <;> simp [ram_events, ih]

theorem loaded_indices_append (a b : List Event) :
    loaded_indices (a ++ b) = loaded_indices a ++ loaded_indices b := by
  induction a with
  | nil => rfl
  | cons e t ih => cases e <;> simp [loaded_indices, ih]

theorem loaded_indices_stores (l : List Nat) (f : Nat → Nat) :
    loaded_indices (l.map (fun j => Event.store j (f j))) = [] := by
  induction l with
  | nil => rfl
  | cons a t ih => simp [loaded_indices, ih]

theorem loaded_indices_loads (l : List Nat) :
    loaded_indices (l.map Event.load) = l := by
  induction l with
  | nil => rfl
  | cons a t ih => simp [loaded_indices, ih]

theorem mem_corruption_logs_append (a b : List Event) :
    mem_corruption_logs (a ++ b) = mem_corruption_logs a ++ mem_corruption_logs b := by
  induction a with
  | nil => rfl
  | cons e t ih =>
      cases e with
      | printf m => cases m <;> simp [mem_corruption_logs, ih]
      | _ => simp [mem_corruption_logs, ih]

theorem mem_corruption_logs_stores (l : List Nat) (f : Nat → Nat) :
    mem_corruption_logs (l.map (fun j => Event.store j (f j))) = [] := by
  induction l with
  | nil => rfl
  | cons a t ih => simp [mem_corruption_logs, ih]

theorem mem_corruption_logs_loads (l : List Nat) :
    mem_corruption_logs (l.map Event.load) = [] := by
  induction l with
  | nil => rfl
  | cons a t ih => simp [mem_corruption_logs, ih]

theorem memory_test_fail_trace {σ : Type} (ram : RamDevice σ) (s : σ) (k : Nat)
    (hk : k < 65536)
    (hlow : ∀ i, i < k → ram.load (mem_write_loop ram s 0).1 i % 256 = i % 256)
    (hbad : ram.load (mem_write_loop ram s 0).1 k % 256 ≠ k % 256) :
    memory_test ram (some s)
      = (false,
          [Event.printf Msg.mem_start, Event.malloc 65536]
            ++ (List.range 65536).map (fun i => Event.store i (i % 256))
            ++ (List.range (k + 1)).map Event.load
            ++ [Event.printf (Msg.mem_corruption k), Event.free]) := by
  have hT : TOTAL_RAM_TEST_SIZE = 65536 := by decide
  have hw := mem_write_loop_trace ram 65536 0 s (by rw [hT])
  have hv := mem_verify_loop_fail ram (mem_write_loop ram s 0).1 k (by rw [hT]; exact hk) hbad
    k 0 (by omega) (fun j _ h2 => hlow j h2)
  rw [← List.range_eq_range'] at hw hv
  have hr : List.range (k + 1) = List.range k ++ [k] := List.range_succ k
  unfold memory_test
  simp only []
  have e1 : List.map Event.load (List.range k ++ [k])
      ++ [Event.printf (Msg.mem_corruption k), Event.free]
      = List.map Event.load (List.range k)
        ++ [Event.load k, Event.printf (Msg.mem_corruption k), Event.free] := by
    simp
  rw [hw, hv, hr, hT, List.append_assoc _ (List.map Event.load (List.range k ++ [k])) _, e1]

/-! ## Lemmas: `flash_test` -/

theorem fill_loop_spec :
    ∀ (n i : Nat) (td : Nat → Nat), i + n = SPI_FLASH_SECTOR_SIZE → ∀ j,
      fill_loop td i j = if i ≤ j ∧ j < SPI_FLASH_SECTOR_SIZE then j % 256 else td j := by
  intro n
  induction n with
  | zero =>
      intro i td h j
      rw [fill_loop]
      have h1 : ¬ i < SPI_FLASH_SECTOR_SIZE := by omega
      have h2 : ¬ (i ≤ j ∧ j < SPI_FLASH_SECTOR_SIZE) := by omega
      simp [h1, h2]
  | succ n ih =>
      intro i td h j
      rw [fill_loop]
      have hlt : i < SPI_FLASH_SECTOR_SIZE := by omega
      simp only [hlt, if_true]
      rw [ih (i + 1) _ (by omega) j]
      by_cases hji : j = i
      · subst hji
        have h1 : ¬ (j + 1 ≤ j ∧ j < SPI_FLASH_SECTOR_SIZE) := by omega
        have h2 : j ≤ j ∧ j < SPI_FLASH_SECTOR_SIZE := ⟨le_refl _, hlt⟩
        simp [h1, h2, UINT8_RANGE]
      · by_cases hc : i ≤ j ∧ j < SPI_FLASH_SECTOR_SIZE
        · have h1 : i + 1 ≤ j ∧ j < SPI_FLASH_SECTOR_SIZE := by omega
          simp [h1, hc]
        · have h1 : ¬ (i + 1 ≤ j ∧ j < SPI_FLASH_SECTOR_SIZE) := by omega
          simp [h1, hc, hji]

theorem fill_loop_pattern (td : Nat → Nat) (j : Nat) (hj : j < SPI_FLASH_SECTOR_SIZE) :
    fill_loop td 0 j = j % 256 := by
  rw [fill_loop_spec SPI_FLASH_SECTOR_SIZE 0 td (by omega) j]
  simp [hj]

theorem bytes_fill_loop (td : Nat → Nat) :
    bytes (fill_loop td 0) SPI_FLASH_SECTOR_SIZE = pattern SPI_FLASH_SECTOR_SIZE := by
  unfold bytes pattern
  apply List.map_congr_left
  intro j hj
  exact fill_loop_pattern td j (List.mem_range.mp hj)

theorem compare_loop_none (rb td : Nat → Nat) :
    ∀ (n i : Nat), i + n = SPI_FLASH_SECTOR_SIZE →
      (∀ j, i ≤ j → j < SPI_FLASH_SECTOR_SIZE → rb j = td j) →
      compare_loop rb td i = none := by
  intro n
  induction n with
  | zero =>
      intro i h _
      rw [compare_loop]
      simp [show ¬ i < SPI_FLASH_SECTOR_SIZE by omega]
  | succ n ih =>
      intro i h hok
      rw [compare_loop]
      have hlt : i < SPI_FLASH_SECTOR_SIZE := by omega
      simp [hlt, hok i (le_refl _) hlt,
        ih (i + 1) (by omega) (fun j h1 h2 => hok j (by omega) h2)]

theorem compare_loop_some (rb td : Nat → Nat) (k : Nat) (hk : k < SPI_FLASH_SECTOR_SIZE)
    (hbad : rb k ≠ td k) :
    ∀ (n i : Nat), i + n = k → (∀ j, i ≤ j → j < k → rb j = td j) →
      compare_loop rb td i = some k := by
  intro n
  induction n with
  | zero =>
      intro i h _
      have hik : i = k := by omega
      subst hik
      rw [compare_loop]
      simp [hk, hbad]
  | succ n ih =>
      intro i h hok
      rw [compare_loop]
      have hlt : i < SPI_FLASH_SECTOR_SIZE := by omega
      simp [hlt, hok i (le_refl _) (by omega),
        ih (i + 1) (by omega) (fun j h1 h2 => hok j (by omega) h2)]

theorem flash_loop_exit {σ : Type} (dev : FlashDevice σ) (s : σ) (addr ts : Nat)
    (td rb : Nat → Nat) (h : ¬ addr < MAX_FLASH_SIZE) :
    flash_loop dev s addr ts td rb = (true, [Event.printf (Msg.flash_passed ts)]) := by
  rw [flash_loop]
  simp [h]

theorem flash_loop_sector_ok {σ : Type} (dev : FlashDevice σ) (s : σ) (addr ts : Nat)
    (td rb : Nat → Nat) (h : addr < MAX_FLASH_SIZE)
    (hm : ∀ i, i < SPI_FLASH_SECTOR_SIZE →
      dev.read (dev.program (dev.erase s addr SPI_FLASH_SECTOR_SIZE) addr
        (pattern SPI_FLASH_SECTOR_SIZE) SPI_FLASH_SECTOR_SIZE) (addr + i) % UINT8_RANGE
        = i % 256) :
    ∃ td1 rb1, flash_loop dev s addr ts td rb
      = ((flash_loop dev
            (dev.program (dev.erase s addr SPI_FLASH_SECTOR_SIZE) addr
              (pattern SPI_FLASH_SECTOR_SIZE) SPI_FLASH_SECTOR_SIZE)
            ((addr + SPI_FLASH_SECTOR_SIZE) % UINT32_RANGE)
            ((ts + SPI_FLASH_SECTOR_SIZE) % UINT32_RANGE) td1 rb1).1,
         sector_ok_events addr ((ts + SPI_FLASH_SECTOR_SIZE) % UINT32_RANGE)
          ++ (flash_loop dev
            (dev.program (dev.erase s addr SPI_FLASH_SECTOR_SIZE) addr
              (pattern SPI_FLASH_SECTOR_SIZE) SPI_FLASH_SECTOR_SIZE)
            ((addr + SPI_FLASH_SECTOR_SIZE) % UINT32_RANGE)
            ((ts + SPI_FLASH_SECTOR_SIZE) % UINT32_RANGE) td1 rb1).2) := by
  have hc : compare_loop
      (xip_memcpy dev (dev.program (dev.erase s addr SPI_FLASH_SECTOR_SIZE) addr
        (pattern SPI_FLASH_SECTOR_SIZE) SPI_FLASH_SECTOR_SIZE) addr rb)
      (fill_loop td 0) 0 = none := by
    apply compare_loop_none _ _ SPI_FLASH_SECTOR_SIZE 0 (by omega)
    intro j _ hj
    rw [fill_loop_pattern td j hj]
    simp only [xip_memcpy, hj, if_true]
    exact hm j hj
  refine ⟨fill_loop td 0, xip_memcpy dev (dev.program (dev.erase s addr SPI_FLASH_SECTOR_SIZE)
    addr (pattern SPI_FLASH_SECTOR_SIZE) SPI_FLASH_SECTOR_SIZE) addr rb, ?_⟩
  rw [flash_loop]
  simp only [h, if_true, bytes_fill_loop, hc, sector_ok_events]
  simp only [List.append_assoc, List.cons_append, List.nil_append]

theorem flash_loop_sector_fail {σ : Type} (dev : FlashDevice σ) (s : σ) (addr ts : Nat)
    (td rb : Nat → Nat) (h : addr < MAX_FLASH_SIZE) (j : Nat) (hj : j < SPI_FLASH_SECTOR_SIZE)
    (hlow : ∀ i, i < j →
      dev.read (dev.program (dev.erase s addr SPI_FLASH_SECTOR_SIZE) addr
        (pattern SPI_FLASH_SECTOR_SIZE) SPI_FLASH_SECTOR_SIZE) (addr + i) % UINT8_RANGE
        = i % 256)
    (hbad : dev.read (dev.program (dev.erase s addr SPI_FLASH_SECTOR_SIZE) addr
        (pattern SPI_FLASH_SECTOR_SIZE) SPI_FLASH_SECTOR_SIZE) (addr + j) % UINT8_RANGE
        ≠ j % 256) :
    flash_loop dev s addr ts td rb = (false, sector_fail_events addr ts j) := by
  have hc : compare_loop
      (xip_memcpy dev (dev.program (dev.erase s addr SPI_FLASH_SECTOR_SIZE) addr
        (pattern SPI_FLASH_SECTOR_SIZE) SPI_FLASH_SECTOR_SIZE) addr rb)
      (fill_loop td 0) 0 = some j := by
    apply compare_loop_some _ _ j hj _ j 0 (by omega)
    · intro i _ hi
      have hi2 : i < SPI_FLASH_SECTOR_SIZE := by omega
      rw [fill_loop_pattern td i hi2]
      simp only [xip_memcpy, hi2, if_true]
      exact hlow i hi
    · rw [fill_loop_pattern td j hj]
      simp only [xip_memcpy, hj, if_true]
      exact hbad
  rw [flash_loop]
  simp only [h, if_true, bytes_fill_loop, hc, sector_fail_events]
  simp only [List.append_assoc, List.cons_append, List.nil_append]

theorem SWEEP_SECTORS_eq : SWEEP_SECTORS = 3840 := by decide

theorem sector_addr_eq (k : Nat) : sector_addr k = 1048576 + k * 4096 := by
  simp [sector_addr, FLASH_TARGET_OFFSET, SPI_FLASH_SECTOR_SIZE]

theorem sector_addr_lt (k : Nat) (hk : k < SWEEP_SECTORS) : sector_addr k < MAX_FLASH_SIZE := by
  rw [SWEEP_SECTORS_eq] at hk
  rw [sector_addr_eq]
  simp only [MAX_FLASH_SIZE]
  omega

theorem sector_addr_next (k : Nat) (hk : k < SWEEP_SECTORS) :
    (sector_addr k + SPI_FLASH_SECTOR_SIZE) % UINT32_RANGE = sector_addr (k + 1) := by
  rw [SWEEP_SECTORS_eq] at hk
  rw [sector_addr_eq, sector_addr_eq]
  simp only [SPI_FLASH_SECTOR_SIZE, UINT32_RANGE]
  omega

theorem tested_size_next (k : Nat) (hk : k < SWEEP_SECTORS) :
    (k * SPI_FLASH_SECTOR_SIZE + SPI_FLASH_SECTOR_SIZE) % UINT32_RANGE
      = (k + 1) * SPI_FLASH_SECTOR_SIZE := by
  rw [SWEEP_SECTORS_eq] at hk
  simp only [SPI_FLASH_SECTOR_SIZE, UINT32_RANGE]
  omega

theorem flash_loop_sweep_step {σ : Type} (dev : FlashDevice σ) (s : σ) (k : Nat)
    (td rb : Nat → Nat) (hk : k < SWEEP_SECTORS) (hm : sector_matches dev s k) :
    ∃ td1 rb1,
      flash_loop dev (sweep_state dev s k) (sector_addr k) (k * SPI_FLASH_SECTOR_SIZE) td rb
        = ((flash_loop dev (sweep_state dev s (k + 1)) (sector_addr (k + 1))
              ((k + 1) * SPI_FLASH_SECTOR_SIZE) td1 rb1).1,
           sector_ok_events (sector_addr k) ((k + 1) * SPI_FLASH_SECTOR_SIZE)
            ++ (flash_loop dev (sweep_state dev s (k + 1)) (sector_addr (k + 1))
              ((k + 1) * SPI_FLASH_SECTOR_SIZE) td1 rb1).2) := by
  obtain ⟨td1, rb1, h⟩ := flash_loop_sector_ok dev (sweep_state dev s k) (sector_addr k)
    (k * SPI_FLASH_SECTOR_SIZE) td rb (sector_addr_lt k hk) (fun i hi => hm i hi)
  rw [sector_addr_next k hk, tested_size_next k hk] at h
  exact ⟨td1, rb1, h⟩

theorem flash_loop_sweep_fail {σ : Type} (dev : FlashDevice σ) (s : σ) (N j : Nat)
    (hN : N < SWEEP_SECTORS) (hj : j < SPI_FLASH_SECTOR_SIZE)
    (hfm : first_mismatch dev s N j) :
    ∀ (d k : Nat) (td rb : Nat → Nat), k + d = N →
      flash_loop dev (sweep_state dev s k) (sector_addr k) (k * SPI_FLASH_SECTOR_SIZE) td rb
        = (false, sweep_ok_events k d
            ++ sector_fail_events (sector_addr N) (N * SPI_FLASH_SECTOR_SIZE) j) := by
  intro d
  induction d with
  | zero =>
      intro k td rb h
      have hkN : k = N := by omega
      subst hkN
      rw [flash_loop_sector_fail dev (sweep_state dev s k) (sector_addr k)
        (k * SPI_FLASH_SECTOR_SIZE) td rb (sector_addr_lt k hN) j hj
        (fun i hi => hfm.2.1 i hi) hfm.2.2]
      rfl
  | succ d ih =>
      intro k td rb h
      obtain ⟨td1, rb1, hstep⟩ := flash_loop_sweep_step dev s k td rb (by omega)
        (hfm.1 k (by omega))
      rw [hstep, ih (k + 1) td1 rb1 (by omega)]
      simp only [sweep_ok_events, List.append_assoc]

theorem flash_loop_sweep_pass {σ : Type} (dev : FlashDevice σ) (s : σ)
    (hall : ∀ k, k < SWEEP_SECTORS → sector_matches dev s k) :
    ∀ (d k : Nat) (td rb : Nat → Nat), k + d = SWEEP_SECTORS →
      flash_loop dev (sweep_state dev s k) (sector_addr k) (k * SPI_FLASH_SECTOR_SIZE) td rb
        = (true, sweep_ok_events k d
            ++ [Event.printf (Msg.flash_passed (SWEEP_SECTORS * SPI_FLASH_SECTOR_SIZE))]) := by
  intro d
  induction d with
  | zero =>
      intro k td rb h
      have hkN : k = SWEEP_SECTORS := by omega
      subst hkN
      rw [flash_loop_exit]
      · rfl
      · rw [sector_addr_eq, SWEEP_SECTORS_eq]
        simp only [MAX_FLASH_SIZE]
        omega
  | succ d ih =>
      intro k td rb h
      obtain ⟨td1, rb1, hstep⟩ := flash_loop_sweep_step dev s k td rb (by omega)
        (hall k (by omega))
      rw [hstep, ih (k + 1) td1 rb1 (by omega)]
      simp only [sweep_ok_events, List.append_assoc]

theorem flash_test_fail_trace {σ : Type} (dev : FlashDevice σ) (s : σ) (td rb : Nat → Nat)
    (N j : Nat) (hN : N < 3840) (hj : j < 4096) (hfm : first_mismatch dev s N j) :
    flash_test dev s td rb
      = (false, Event.printf Msg.flash_start
          :: (sweep_ok_events 0 N ++ sector_fail_events (1048576 + N * 4096) (N * 4096) j)) := by
  have h := flash_loop_sweep_fail dev s N j (by rw [SWEEP_SECTORS_eq]; exact hN) hj hfm
    N 0 td rb (by omega)
  rw [sector_addr_eq N] at h
  have h0 : sector_addr 0 = FLASH_TARGET_OFFSET := by simp [sector_addr]
  have hs : SPI_FLASH_SECTOR_SIZE = 4096 := by decide
  rw [h0, hs] at h
  simp only [Nat.zero_mul] at h
  unfold flash_test
  simp only []
  rw [show sweep_state dev s 0 = s from rfl] at h
  rw [h]

theorem flash_test_pass_trace {σ : Type} (dev : FlashDevice σ) (s : σ) (td rb : Nat → Nat)
    (hall : ∀ k, k < 3840 → sector_matches dev s k) :
    flash_test dev s td rb
      = (true, Event.printf Msg.flash_start
          :: (sweep_ok_events 0 3840 ++ [Event.printf (Msg.flash_passed 15728640)])) := by
  have h := flash_loop_sweep_pass dev s (by rw [SWEEP_SECTORS_eq]; exact hall)
    SWEEP_SECTORS 0 td rb (by omega)
  have h0 : sector_addr 0 = FLASH_TARGET_OFFSET := by simp [sector_addr]
  have hsz : SWEEP_SECTORS * SPI_FLASH_SECTOR_SIZE = 15728640 := by decide
  rw [h0, hsz, SWEEP_SECTORS_eq] at h
  simp only [Nat.zero_mul] at h
  unfold flash_test
  simp only []
  rw [show sweep_state dev s 0 = s from rfl] at h
  rw [h]

theorem sweep_dichotomy {σ : Type} (dev : FlashDevice σ) (s : σ) :
    (∀ k, k < 3840 → sector_matches dev s k)
      ∨ ∃ N j, N < 3840 ∧ j < 4096 ∧ first_mismatch dev s N j := by
  classical
  by_cases hall : ∀ k, k < 3840 → sector_matches dev s k
  · exact Or.inl hall
  · right
    have hex : ∃ k, k < 3840 ∧ ¬ sector_matches dev s k := by
      by_contra hne
      apply hall
      intro k hk
      by_contra hm
      exact hne ⟨k, hk, hm⟩
    have hN := Nat.find_spec hex
    have hNmin := fun m (hm : m < Nat.find hex) => Nat.find_min hex hm
    have hex2 : ∃ i, i < 4096 ∧ sector_readback dev s (Nat.find hex) i ≠ i % 256 := by
      by_contra hne
      apply hN.2
      intro i hi
      by_contra hm
      exact hne ⟨i, hi, hm⟩
    have hj := Nat.find_spec hex2
    have hjmin := fun m (hm : m < Nat.find hex2) => Nat.find_min hex2 hm
    refine ⟨Nat.find hex, Nat.find hex2, hN.1, hj.1, ?_, ?_, hj.2⟩
    · intro k hk
      by_contra hm
      exact hNmin k hk ⟨by omega, hm⟩
    · intro i hi
      by_contra hm
      exact hjmin i hi ⟨by omega, hm⟩

/-! ## Lemmas: observations on flash traces -/

theorem flash_ops_append (a b : List Event) :
    flash_ops (a ++ b) = flash_ops a ++ flash_ops b := by
  induction a with
  | nil => rfl
  | cons e t ih => cases e <;> simp [flash_ops, ih]

theorem flash_addrs_append (a b : List Event) :
    flash_addrs (a ++ b) = flash_addrs a ++ flash_addrs b := by
  induction a with
  | nil => rfl
  | cons e t ih => cases e <;> simp [flash_addrs, ih]

theorem erase_addrs_append (a b : List Event) :
    erase_addrs (a ++ b) = erase_addrs a ++ erase_addrs b := by
  induction a with
  | nil => rfl
  | cons e t ih => cases e <;> simp [erase_addrs, ih]

theorem program_data_append (a b : List Event) :
    program_data (a ++ b) = program_data a ++ program_data b := by
  induction a with
  | nil => rfl
  | cons e t ih => cases e <;> simp [program_data, ih]

theorem blink_calls_append (a b : List Event) :
    blink_calls (a ++ b) = blink_calls a ++ blink_calls b := by
  induction a with
  | nil => rfl
  | cons e t ih => cases e <;> simp [blink_calls, ih]

theorem flash_corruption_logs_append (a b : List Event) :
    flash_corruption_logs (a ++ b) = flash_corruption_logs a ++ flash_corruption_logs b := by
  induction a with
  | nil => rfl
  | cons e t ih =>
      cases e with
      | printf m => cases m <;> simp [flash_corruption_logs, ih]
      | _ => simp [flash_corruption_logs, ih]

theorem detected_size_logs_append (a b : List Event) :
    detected_size_logs (a ++ b) = detected_size_logs a ++ detected_size_logs b := by
  induction a with
  | nil => rfl
  | cons e t ih =>
      cases e with
      | printf m => cases m <;> simp [detected_size_logs, ih]
      | _ => simp [detected_size_logs, ih]

theorem flash_ops_sweep_ok (d : Nat) :
    ∀ k, flash_ops (sweep_ok_events k d) = sweep_ops k d := by
  induction d with
  | zero => intro k; rfl
  | succ d ih =>
      intro k
      simp only [sweep_ok_events, sweep_ops, flash_ops_append, ih]
      rfl

theorem flash_ops_sector_fail (k ts j : Nat) :
    flash_ops (sector_fail_events (sector_addr k) ts j) = sweep_ops k 1 := rfl

theorem sweep_ops_add (a : Nat) :
    ∀ k b, sweep_ops k (a + b) = sweep_ops k a ++ sweep_ops (k + a) b := by
  induction a with
  | zero => intro k b; simp [sweep_ops]
  | succ a ih =>
      intro k b
      have h1 : a + 1 + b = (a + b) + 1 := by omega
      have h2 : k + (a + 1) = k + 1 + a := by omega
      rw [h1, h2]
      simp only [sweep_ops, ih (k + 1) b, List.append_assoc]

theorem erase_addrs_sweep_ok (d : Nat) :
    ∀ k, erase_addrs (sweep_ok_events k d) = (List.range' k d).map sector_addr := by
  induction d with
  | zero => intro k; rfl
  | succ d ih =>
      intro k
      simp only [sweep_ok_events, erase_addrs_append, ih, List.range'_succ, List.map_cons]
      rfl

theorem erase_addrs_sector_fail (a ts j : Nat) :
    erase_addrs (sector_fail_events a ts j) = [a] := rfl

theorem program_data_sweep_ok (d : Nat) :
    ∀ k, program_data (sweep_ok_events k d)
      = List.replicate d (pattern SPI_FLASH_SECTOR_SIZE) := by
  induction d with
  | zero => intro k; rfl
  | succ d ih =>
      intro k
      simp only [sweep_ok_events, program_data_append, ih, List.replicate_succ]
      rfl

theorem program_data_sector_fail (a ts j : Nat) :
    program_data (sector_fail_events a ts j) = [pattern SPI_FLASH_SECTOR_SIZE] := rfl

theorem blink_calls_sweep_ok (d : Nat) : ∀ k, blink_calls (sweep_ok_events k d) = [] := by
  induction d with
  | zero => intro k; rfl
  | succ d ih =>
      intro k
      simp only [sweep_ok_events, blink_calls_append, ih]
      rfl

theorem flash_corruption_logs_sweep_ok (d : Nat) :
    ∀ k, flash_corruption_logs (sweep_ok_events k d) = [] := by
  induction d with
  | zero => intro k; rfl
  | succ d ih =>
      intro k
      simp only [sweep_ok_events, flash_corruption_logs_append, ih]
      rfl

theorem detected_size_logs_sweep_ok (d : Nat) :
    ∀ k, detected_size_logs (sweep_ok_events k d) = [] := by
  induction d with
  | zero => intro k; rfl
  | succ d ih =>
      intro k
      simp only [sweep_ok_events, detected_size_logs_append, ih]
      rfl

theorem flash_addrs_sweep_ok_mem (d : Nat) :
    ∀ k a, a ∈ flash_addrs (sweep_ok_events k d) →
      ∃ m, k ≤ m ∧ m < k + d ∧ a = sector_addr m := by
  induction d with
  | zero => intro k a h; simp [sweep_ok_events, flash_addrs] at h
  | succ d ih =>
      intro k a h
      simp only [sweep_ok_events, flash_addrs_append, List.mem_append] at h
      rcases h with h | h
      · have h2 : a = sector_addr k := by
          simp [sector_ok_events, flash_addrs] at h
          exact h
        exact ⟨k, le_refl _, by omega, h2⟩
      · obtain ⟨m, h1, h2, h3⟩ := ih (k + 1) a h
        exact ⟨m, by omega, by omega, h3⟩

theorem flash_addrs_sector_fail_mem (a0 ts j a : Nat)
    (h : a ∈ flash_addrs (sector_fail_events a0 ts j)) : a = a0 := by
  simp [sector_fail_events, flash_addrs] at h
  exact h

/-! ## Lemmas: flash parts -/

theorem land_255 (x : Nat) (hx : x < 256) : 255 &&& x = x := by
  have h := Nat.and_pow_two_sub_one_eq_mod x 8
  rw [Nat.land_comm]
  have h8 : (2 : Nat) ^ 8 - 1 = 255 := by norm_num
  rw [h8] at h
  rw [h]
  exact Nat.mod_eq_of_lt (by norm_num; exact hx)

theorem pattern_getD (n j : Nat) (hj : j < n) : (pattern n).getD j 255 = j % 256 := by
  simp [pattern, List.getD_eq_getElem?_getD, hj]

theorem nor_erase_cell (decode : Nat → Nat) (s : Nat → Nat) (offs : Nat) :
    ∀ (n j : Nat), j < n → (norFlash decode).erase s offs n (decode (offs + j)) = 255 := by
  intro n
  induction n with
  | zero => intro j hj; omega
  | succ n ih =>
      intro j hj
      simp only [norFlash, List.range_succ, List.foldl_append, List.foldl_cons, List.foldl_nil]
      by_cases hc : decode (offs + j) = decode (offs + n)
      · simp [hc]
      · have hjn : j < n := by
          by_contra hne
          have : j = n := by omega
          exact hc (by rw [this])
        simp only [hc, if_false]
        exact ih j hjn

theorem nor_program_cell (decode : Nat → Nat) (s : Nat → Nat) (offs : Nat) (data : List Nat)
    (count : Nat)
    (hinj : ∀ i j, i < count → j < count → decode (offs + i) = decode (offs + j) → i = j) :
    ∀ (n : Nat), n ≤ count →
      (∀ c, (∀ i, i < n → c ≠ decode (offs + i)) →
        (norFlash decode).program s offs data n c = s c) ∧
      (∀ j, j < n → (norFlash decode).program s offs data n (decode (offs + j))
        = s (decode (offs + j)) &&& data.getD j 255) := by
  intro n
  induction n with
  | zero =>
      intro _
      refine ⟨?_, ?_⟩
      · intro c _
        simp [norFlash]
      · intro j hj
        omega
  | succ n ih =>
      intro hn
      obtain ⟨ih1, ih2⟩ := ih (by omega)
      have hstep : ∀ c, (norFlash decode).program s offs data (n + 1) c
          = if c = decode (offs + n)
            then (norFlash decode).program s offs data n c &&& data.getD n 255
            else (norFlash decode).program s offs data n c := by
        intro c
        simp only [norFlash, List.range_succ, List.foldl_append, List.foldl_cons,
          List.foldl_nil]
      refine ⟨?_, ?_⟩
      · intro c hc
        rw [hstep c]
        have h1 : c ≠ decode (offs + n) := hc n (by omega)
        simp only [h1, if_false]
        exact ih1 c (fun i hi => hc i (by omega))
      · intro j hj
        rw [hstep]
        by_cases hjn : j = n
        · subst hjn
          simp only [if_true]
          rw [ih1 (decode (offs + j))]
          intro i hi heq
          have := hinj j i (by omega) (by omega) heq
          omega
        · have hne : decode (offs + j) ≠ decode (offs + n) := by
            intro heq
            exact hjn (hinj j n (by omega) (by omega) heq)
          simp only [hne, if_false]
          exact ih2 j (by omega)

theorem nor_readback (decode : Nat → Nat) (s : Nat → Nat) (addr : Nat)
    (hinj : ∀ i j, i < SPI_FLASH_SECTOR_SIZE → j < SPI_FLASH_SECTOR_SIZE →
      decode (addr + i) = decode (addr + j) → i = j)
    (j : Nat) (hj : j < SPI_FLASH_SECTOR_SIZE) :
    (norFlash decode).read
      ((norFlash decode).program ((norFlash decode).erase s addr SPI_FLASH_SECTOR_SIZE) addr
        (pattern SPI_FLASH_SECTOR_SIZE) SPI_FLASH_SECTOR_SIZE) (addr + j) = j % 256 := by
  have hp := (nor_program_cell decode ((norFlash decode).erase s addr SPI_FLASH_SECTOR_SIZE)
    addr (pattern SPI_FLASH_SECTOR_SIZE) SPI_FLASH_SECTOR_SIZE hinj SPI_FLASH_SECTOR_SIZE
    (le_refl _)).2 j hj
  have hr : ∀ st a, (norFlash decode).read st a = st (decode a) := fun _ _ => rfl
  rw [hr, hp, nor_erase_cell decode s addr SPI_FLASH_SECTOR_SIZE j hj,
    pattern_getD SPI_FLASH_SECTOR_SIZE j hj]
  exact land_255 (j % 256) (Nat.mod_lt _ (by norm_num))

theorem nor_sector_matches (decode : Nat → Nat) (s : Nat → Nat) (k : Nat)
    (hinj : ∀ i j, i < SPI_FLASH_SECTOR_SIZE → j < SPI_FLASH_SECTOR_SIZE →
      decode (sector_addr k + i) = decode (sector_addr k + j) → i = j) :
    sector_matches (norFlash decode) s k := by
  intro i hi
  unfold sector_readback
  rw [show sweep_state (norFlash decode) s (k + 1)
      = (norFlash decode).program
          ((norFlash decode).erase (sweep_state (norFlash decode) s k) (sector_addr k)
            SPI_FLASH_SECTOR_SIZE)
          (sector_addr k) (pattern SPI_FLASH_SECTOR_SIZE) SPI_FLASH_SECTOR_SIZE from rfl,
    nor_readback decode _ (sector_addr k) hinj i hi]
  simp [UINT8_RANGE]

theorem wrapFlash_sector_matches (size : Nat) (hsize : 4096 ≤ size) (s : Nat → Nat) (k : Nat) :
    sector_matches (wrapFlash size) s k := by
  apply nor_sector_matches
  intro i j hi hj heq
  have hs : SPI_FLASH_SECTOR_SIZE = 4096 := by decide
  rw [hs] at hi hj
  have h1 : i ≡ j [MOD size] := Nat.ModEq.add_left_cancel' (sector_addr k) heq
  have h2 : i % size = j % size := h1
  rw [Nat.mod_eq_of_lt (by omega), Nat.mod_eq_of_lt (by omega)] at h2
  exact h2

theorem sweep_state_succ {σ : Type} (dev : FlashDevice σ) (s : σ) (k : Nat) :
    sweep_state dev s (k + 1)
      = dev.program (dev.erase (sweep_state dev s k) (sector_addr k) SPI_FLASH_SECTOR_SIZE)
          (sector_addr k) (pattern SPI_FLASH_SECTOR_SIZE) SPI_FLASH_SECTOR_SIZE := rfl

theorem stuckFlash_sweep_state (bad v : Nat) (s : Nat → Nat) :
    ∀ k, sweep_state (stuckFlash bad v) s k = sweep_state (norFlash id) s k := by
  intro k
  induction k with
  | zero => rfl
  | succ k ih =>
      have hp : (stuckFlash bad v).program = (norFlash id).program := rfl
      have he : (stuckFlash bad v).erase = (norFlash id).erase := rfl
      rw [sweep_state_succ, sweep_state_succ, ih, hp, he]

theorem stuckFlash_readback (bad v : Nat) (s : Nat → Nat) (k i : Nat)
    (hi : i < SPI_FLASH_SECTOR_SIZE) :
    sector_readback (stuckFlash bad v) s k i
      = if sector_addr k + i = bad then v % 256 else i % 256 := by
  have hm := nor_sector_matches id s k (fun a b _ _ h => by simpa using h) i hi
  unfold sector_readback at hm ⊢
  rw [stuckFlash_sweep_state]
  by_cases hb : sector_addr k + i = bad
  · simp [stuckFlash, hb, UINT8_RANGE]
  · simp only [hb, if_false]
    rw [← hm]
    simp [stuckFlash, hb]

theorem stuckFlash_first_mismatch (v : Nat) (s : Nat → Nat) (N j : Nat) (hj : j < 4096)
    (hv : v % 256 ≠ j % 256) :
    first_mismatch (stuckFlash (sector_addr N + j) v) s N j := by
  have hs : SPI_FLASH_SECTOR_SIZE = 4096 := by decide
  refine ⟨?_, ?_, ?_⟩
  · intro k hk i hi
    rw [stuckFlash_readback _ _ _ _ _ hi]
    rw [hs] at hi
    have hne : sector_addr k + i ≠ sector_addr N + j := by
      rw [sector_addr_eq, sector_addr_eq]
      omega
    simp [hne]
  · intro i hi
    rw [stuckFlash_readback _ _ _ _ _ (by rw [hs]; omega)]
    have hne : sector_addr N + i ≠ sector_addr N + j := by omega
    simp [hne]
  · rw [stuckFlash_readback _ _ _ _ _ (by rw [hs]; omega)]
    simp [hv]

/-! ## Lemmas: calls of `continuous_blink` in the traces of `main` -/

theorem blink_calls_printf (m : Msg) (t : List Event) :
    blink_calls (Event.printf m :: t) = blink_calls t := rfl

theorem blink_calls_pulses (n : Nat) : blink_calls (pulses n) = [] := by
  induction n with
  | zero => rfl
  | succ n ih =>
      simp only [pulses, blink_calls_append, ih]
      rfl

theorem blink_calls_continuous_blink (blinks : Int) (cycles : Nat) :
    blink_calls (continuous_blink blinks cycles) = [] := by
  induction cycles with
  | zero => rfl
  | succ c ih =>
      rw [continuous_blink_succ, blink_calls_append, blink_calls_append, ih,
        blink_for_eq blinks blinks.toNat 0 (by simp), blink_calls_pulses]
      rfl

theorem blink_calls_wait_for_usb_loop :
    ∀ (n i : Nat), i + n = 10 → blink_calls (wait_for_usb_loop i) = [] := by
  intro n
  induction n with
  | zero =>
      intro i h
      rw [wait_for_usb_loop]
      simp [show ¬ i < 10 by omega, blink_calls]
  | succ n ih =>
      intro i h
      rw [wait_for_usb_loop]
      simp [show i < 10 by omega, blink_calls, ih (i + 1) (by omega)]

theorem blink_calls_stores (l : List Nat) (f : Nat → Nat) :
    blink_calls (l.map (fun j => Event.store j (f j))) = [] := by
  induction l with
  | nil => rfl
  | cons a t ih => simp [blink_calls, ih]

theorem blink_calls_mem_verify_loop {σ : Type} (ram : RamDevice σ) (s : σ) :
    ∀ (n i : Nat), i + n = TOTAL_RAM_TEST_SIZE →
      blink_calls (mem_verify_loop ram s i).2 = [] := by
  intro n
  induction n with
  | zero =>
      intro i h
      rw [mem_verify_loop]
      simp [show ¬ i < TOTAL_RAM_TEST_SIZE by omega, blink_calls]
  | succ n ih =>
      intro i h
      rw [mem_verify_loop]
      have hlt : i < TOTAL_RAM_TEST_SIZE := by omega
      by_cases hc : ram.load s i % UINT8_RANGE ≠ i % 256
      · rw [if_pos hlt, if_pos hc]
        rfl
      · rw [if_pos hlt, if_neg hc]
        exact ih (i + 1) (by omega)

theorem blink_calls_memory_test {σ : Type} (ram : RamDevice σ) (heap : Option σ) :
    blink_calls (memory_test ram heap).2 = [] := by
  cases heap with
  | none => rfl
  | some s =>
      unfold memory_test
      simp only []
      rw [blink_calls_append, blink_calls_append,
        mem_write_loop_trace ram TOTAL_RAM_TEST_SIZE 0 s (by omega), blink_calls_stores,
        blink_calls_mem_verify_loop ram _ TOTAL_RAM_TEST_SIZE 0 (by omega)]
      rfl

theorem blink_calls_flash_test {σ : Type} (dev : FlashDevice σ) (s : σ) (td rb : Nat → Nat) :
    blink_calls (flash_test dev s td rb).2 = [] := by
  rcases sweep_dichotomy dev s with hall | ⟨N, j, hN, hj, hfm⟩
  · rw [flash_test_pass_trace dev s td rb hall]
    show blink_calls (Event.printf Msg.flash_start
      :: (sweep_ok_events 0 3840 ++ [Event.printf (Msg.flash_passed 15728640)])) = []
    rw [blink_calls_printf, blink_calls_append, blink_calls_sweep_ok]
    rfl
  · rw [flash_test_fail_trace dev s td rb N j hN hj hfm]
    show blink_calls (Event.printf Msg.flash_start
      :: (sweep_ok_events 0 N ++ sector_fail_events (1048576 + N * 4096) (N * 4096) j)) = []
    rw [blink_calls_printf, blink_calls_append, blink_calls_sweep_ok]
    rfl

theorem blink_calls_report (mem_result flash_result : Bool) (cycles : Nat) :
    blink_calls (report mem_result flash_result cycles)
      = [if mem_result = false then 1 else if flash_result = false then 2 else 3] := by
  cases mem_result <;> cases flash_result <;>
    simp [report, blink_calls, blink_calls_continuous_blink]

/-! ## Lemmas: RAM parts -/

theorem stuckRam_load_written (k v : Nat) (s : Nat → Nat) (i : Nat) (hi : i < 65536) :
    (stuckRam k v).load (mem_write_loop (stuckRam k v) s 0).1 i
      = if i = k then v else i % 256 := by
  have hT : TOTAL_RAM_TEST_SIZE = 65536 := by decide
  have hl : ∀ st, (stuckRam k v).load st i = if i = k then v else st i := fun _ => rfl
  rw [hl, mem_write_loop_state (stuckRam k v) (fun _ _ _ => rfl) TOTAL_RAM_TEST_SIZE 0 s
    (by omega) i]
  have h2 : 0 ≤ i ∧ i < TOTAL_RAM_TEST_SIZE := ⟨Nat.zero_le _, by rw [hT]; exact hi⟩
  rw [if_pos h2]

theorem idealRam_load_written (s : Nat → Nat) (i : Nat) (hi : i < 65536) :
    idealRam.load (mem_write_loop idealRam s 0).1 i = i % 256 := by
  have hT : TOTAL_RAM_TEST_SIZE = 65536 := by decide
  have hl : ∀ st, idealRam.load st i = st i := fun _ => rfl
  rw [hl, mem_write_loop_state idealRam (fun _ _ _ => rfl) TOTAL_RAM_TEST_SIZE 0 s
    (by omega) i]
  have h2 : 0 ≤ i ∧ i < TOTAL_RAM_TEST_SIZE := ⟨Nat.zero_le _, by rw [hT]; exact hi⟩
  rw [if_pos h2]

theorem program_data_printf (m : Msg) (t : List Event) :
    program_data (Event.printf m :: t) = program_data t := rfl

theorem program_data_flash_test {σ : Type} (dev : FlashDevice σ) (s : σ) (td rb : Nat → Nat) :
    ∃ n, program_data (flash_test dev s td rb).2
      = List.replicate n (pattern SPI_FLASH_SECTOR_SIZE) := by
  rcases sweep_dichotomy dev s with hall | ⟨N, j, hN, hj, hfm⟩
  · refine ⟨3840, ?_⟩
    rw [flash_test_pass_trace dev s td rb hall]
    show program_data (Event.printf Msg.flash_start
      :: (sweep_ok_events 0 3840 ++ [Event.printf (Msg.flash_passed 15728640)])) = _
    rw [program_data_printf, program_data_append, program_data_sweep_ok]
    exact List.append_nil _
  · refine ⟨N + 1, ?_⟩
    rw [flash_test_fail_trace dev s td rb N j hN hj hfm]
    show program_data (Event.printf Msg.flash_start
      :: (sweep_ok_events 0 N ++ sector_fail_events (1048576 + N * 4096) (N * 4096) j)) = _
    rw [program_data_printf, program_data_append, program_data_sweep_ok,
      program_data_sector_fail, List.replicate_succ']

/-! ## Lemmas: the two shapes of a `flash_test` trace -/

theorem flash_test_fail_shape {σ : Type} (dev : FlashDevice σ) (s : σ) (td rb : Nat → Nat)
    (N j : Nat) (hN : N < 3840) (hj : j < 4096) (hfm : first_mismatch dev s N j) :
    (flash_test dev s td rb).2
      = Event.printf Msg.flash_start
          :: (sweep_ok_events 0 N ++ sector_fail_events (sector_addr N) (N * 4096) j) := by
  rw [flash_test_fail_trace dev s td rb N j hN hj hfm, sector_addr_eq]

theorem flash_test_pass_shape {σ : Type} (dev : FlashDevice σ) (s : σ) (td rb : Nat → Nat)
    (hall : ∀ k, k < 3840 → sector_matches dev s k) :
    (flash_test dev s td rb).2
      = Event.printf Msg.flash_start
          :: (sweep_ok_events 0 3840 ++ [Event.printf (Msg.flash_passed 15728640)]) := by
  rw [flash_test_pass_trace dev s td rb hall]

theorem flash_ops_printf (m : Msg) (t : List Event) :
    flash_ops (Event.printf m :: t) = flash_ops t := rfl

theorem flash_addrs_printf (m : Msg) (t : List Event) :
    flash_addrs (Event.printf m :: t) = flash_addrs t := rfl

theorem erase_addrs_printf (m : Msg) (t : List Event) :
    erase_addrs (Event.printf m :: t) = erase_addrs t := rfl

theorem flash_corruption_logs_start (t : List Event) :
    flash_corruption_logs (Event.printf Msg.flash_start :: t) = flash_corruption_logs t := rfl

theorem detected_size_logs_start (t : List Event) :
    detected_size_logs (Event.printf Msg.flash_start :: t) = detected_size_logs t := rfl

theorem sector_addr_fun : sector_addr = fun k => 1048576 + k * 4096 :=
  funext sector_addr_eq

theorem flash_ops_fail_shape (N ts j : Nat) :
    flash_ops (Event.printf Msg.flash_start
        :: (sweep_ok_events 0 N ++ sector_fail_events (sector_addr N) ts j))
      = sweep_ops 0 (N + 1) := by
  rw [flash_ops_printf, flash_ops_append, flash_ops_sweep_ok, flash_ops_sector_fail,
    sweep_ops_add N 0 1, Nat.zero_add]

theorem flash_ops_pass_shape (n ts : Nat) :
    flash_ops (Event.printf Msg.flash_start
        :: (sweep_ok_events 0 n ++ [Event.printf (Msg.flash_passed ts)]))
      = sweep_ops 0 n := by
  rw [flash_ops_printf, flash_ops_append, flash_ops_sweep_ok]
  exact List.append_nil _

theorem erase_addrs_fail_shape (N ts j : Nat) :
    erase_addrs (Event.printf Msg.flash_start
        :: (sweep_ok_events 0 N ++ sector_fail_events (sector_addr N) ts j))
      = (List.range (N + 1)).map (fun k => 1048576 + k * 4096) := by
  rw [erase_addrs_printf, erase_addrs_append, erase_addrs_sweep_ok, erase_addrs_sector_fail,
    ← List.range_eq_range', List.range_succ, List.map_append, sector_addr_fun]
  rfl

theorem erase_addrs_pass_shape (n ts : Nat) :
    erase_addrs (Event.printf Msg.flash_start
        :: (sweep_ok_events 0 n ++ [Event.printf (Msg.flash_passed ts)]))
      = (List.range n).map (fun k => 1048576 + k * 4096) := by
  rw [erase_addrs_printf, erase_addrs_append, erase_addrs_sweep_ok,
    ← List.range_eq_range', sector_addr_fun]
  exact List.append_nil _

theorem flash_addrs_fail_shape_mem (N ts j a : Nat)
    (h : a ∈ flash_addrs (Event.printf Msg.flash_start
        :: (sweep_ok_events 0 N ++ sector_fail_events (sector_addr N) ts j))) :
    ∃ m, m ≤ N ∧ a = 1048576 + m * 4096 := by
  rw [flash_addrs_printf, flash_addrs_append, List.mem_append] at h
  rcases h with h | h
  · obtain ⟨m, _, h2, h3⟩ := flash_addrs_sweep_ok_mem N 0 a h
    exact ⟨m, by omega, by rw [h3, sector_addr_eq]⟩
  · exact ⟨N, le_refl _, by rw [flash_addrs_sector_fail_mem _ _ _ _ h, sector_addr_eq]⟩

theorem flash_addrs_pass_shape_mem (n ts a : Nat)
    (h : a ∈ flash_addrs (Event.printf Msg.flash_start
        :: (sweep_ok_events 0 n ++ [Event.printf (Msg.flash_passed ts)]))) :
    ∃ m, m < n ∧ a = 1048576 + m * 4096 := by
  rw [flash_addrs_printf, flash_addrs_append, List.mem_append] at h
  rcases h with h | h
  · obtain ⟨m, _, h2, h3⟩ := flash_addrs_sweep_ok_mem n 0 a h
    exact ⟨m, by omega, by rw [h3, sector_addr_eq]⟩
  · simp [flash_addrs] at h

theorem logs_fail_shape (N ts j : Nat) :
    flash_corruption_logs (Event.printf Msg.flash_start
        :: (sweep_ok_events 0 N ++ sector_fail_events (sector_addr N) ts j))
        = [(sector_addr N, j)]
      ∧ detected_size_logs (Event.printf Msg.flash_start
        :: (sweep_ok_events 0 N ++ sector_fail_events (sector_addr N) ts j)) = [ts] := by
  refine ⟨?_, ?_⟩
  · rw [flash_corruption_logs_start, flash_corruption_logs_append,
      flash_corruption_logs_sweep_ok]
    rfl
  · rw [detected_size_logs_start, detected_size_logs_append, detected_size_logs_sweep_ok]
    rfl

theorem logs_pass_shape (n ts : Nat) :
    flash_corruption_logs (Event.printf Msg.flash_start
        :: (sweep_ok_events 0 n ++ [Event.printf (Msg.flash_passed ts)])) = []
      ∧ detected_size_logs (Event.printf Msg.flash_start
        :: (sweep_ok_events 0 n ++ [Event.printf (Msg.flash_passed ts)])) = [] := by
  refine ⟨?_, ?_⟩
  · rw [flash_corruption_logs_start, flash_corruption_logs_append,
      flash_corruption_logs_sweep_ok]
    rfl
  · rw [detected_size_logs_start, detected_size_logs_append, detected_size_logs_sweep_ok]
    rfl

/-! ## The claims -/

/-- C1: the final branch of `main` maps every pair `(mem_result, flash_result)` to exactly one
call of `continuous_blink`: with count 1 when `mem_result` is false, whatever `flash_result`
is; 2 when only `flash_result` is false; 3 when both are true.  The whole trace of `main`
contains that one call and no other. -/
theorem main_blink_count_total {σ τ : Type} (ram : RamDevice σ) (heap : Option σ)
    (dev : FlashDevice τ) (s : τ) (td rb : Nat → Nat) (mem_result flash_result : Bool)
    (cycles : Nat) :
    blink_calls (report mem_result flash_result cycles)
        = [if mem_result = false then 1 else if flash_result = false then 2 else 3]
      ∧ blink_calls (report false flash_result cycles) = [1]
      ∧ blink_calls (report true false cycles) = [2]
      ∧ blink_calls (report true true cycles) = [3]
      ∧ report false flash_result cycles
          = [Event.printf Msg.mem_failed_halt, Event.call_continuous_blink 1]
              ++ continuous_blink 1 cycles
      ∧ report true false cycles
          = [Event.printf Msg.flash_failed_halt, Event.call_continuous_blink 2]
              ++ continuous_blink 2 cycles
      ∧ report true true cycles
          = [Event.printf Msg.torture_complete, Event.call_continuous_blink 3]
              ++ continuous_blink 3 cycles
      ∧ blink_calls (main ram heap dev s td rb cycles)
          = [if (memory_test ram heap).1 = false then 1
             else if (flash_test dev s td rb).1 = false then 2 else 3] := by
  refine ⟨blink_calls_report _ _ _, ?_, ?_, ?_, rfl, rfl, rfl, ?_⟩
  · rw [blink_calls_report]; rfl
  · rw [blink_calls_report]; rfl
  · rw [blink_calls_report]; rfl
  · unfold main
    simp only []
    rw [blink_calls_append, blink_calls_append, blink_calls_append, blink_calls_append,
      blink_calls_append, blink_calls_report, blink_calls_memory_test, blink_calls_flash_test]
    unfold wait_for_usb
    rw [blink_calls_wait_for_usb_loop 10 0 (by omega)]
    rfl

/-- C9: for every `n ≥ 0` and every cycle index `k`, cycle `k` of `continuous_blink(n)` is
exactly `n` times (LED on, 250 ms, LED off, 250 ms) followed by a 1000 ms delay; it equals
cycle 0; and the trace never ends: every cycle extends the trace by that same non-empty
block. -/
theorem continuous_blink_periodic (n k : Nat) :
    blink_cycle (n : Int) k = pulses n ++ [Event.sleep_ms 1000]
      ∧ pulses n = (List.replicate n
          [Event.gpio_put 25 1, Event.sleep_ms 250, Event.gpio_put 25 0, Event.sleep_ms 250]).flatten
      ∧ blink_cycle (n : Int) k = blink_cycle (n : Int) 0
      ∧ continuous_blink (n : Int) (k + 1)
          = continuous_blink (n : Int) k ++ blink_cycle (n : Int) k
      ∧ (continuous_blink (n : Int) k).length < (continuous_blink (n : Int) (k + 1)).length := by
  have hc : ∀ m, blink_cycle (n : Int) m = pulses n ++ [Event.sleep_ms 1000] := by
    intro m
    rw [blink_cycle_eq]
    simp
  have hp : ∀ m, pulses m = (List.replicate m
      [Event.gpio_put 25 1, Event.sleep_ms 250, Event.gpio_put 25 0, Event.sleep_ms 250]).flatten := by
    intro m
    induction m with
    | zero => rfl
    | succ m ih => rw [pulses, ih, List.replicate_succ, List.flatten_cons]; rfl
  have hs : continuous_blink (n : Int) (k + 1)
      = continuous_blink (n : Int) k ++ blink_cycle (n : Int) k := by
    rw [continuous_blink_succ, hc k, blink_for_eq (n : Int) n 0 (by simp)]
  refine ⟨hc k, hp n, by rw [hc k, hc 0], hs, ?_⟩
  rw [hs, hc k]
  simp

/-- C7: when `malloc` returns a null pointer, `memory_test` returns false after logging the
allocation failure; it performs no store, no load and no `free`. -/
theorem memory_test_alloc_failure {σ : Type} (ram : RamDevice σ) :
    memory_test ram none
        = (false, [Event.printf Msg.mem_start, Event.malloc 65536,
                   Event.printf Msg.mem_alloc_failed])
      ∧ ram_events (memory_test ram none).2 = [] := by
  exact ⟨rfl, rfl⟩

/-- C6: if `k < 65536` is the lowest index whose verify-phase read differs from `k mod 256`,
`memory_test` returns false; the indices read in the verify phase are exactly `0 .. k`, the
only corruption log names offset `k`, and the last action before returning is `free`. -/
theorem memory_test_fail_fast {σ : Type} (ram : RamDevice σ) (s : σ) (k : Nat)
    (hk : k < 65536)
    (hlow : ∀ i, i < k → ram.load (mem_write_loop ram s 0).1 i % 256 = i % 256)
    (hbad : ram.load (mem_write_loop ram s 0).1 k % 256 ≠ k % 256) :
    (memory_test ram (some s)).1 = false
      ∧ (memory_test ram (some s)).2
          = [Event.printf Msg.mem_start, Event.malloc 65536]
              ++ (List.range 65536).map (fun i => Event.store i (i % 256))
              ++ (List.range (k + 1)).map Event.load
              ++ [Event.printf (Msg.mem_corruption k), Event.free]
      ∧ loaded_indices (memory_test ram (some s)).2 = List.range (k + 1)
      ∧ mem_corruption_logs (memory_test ram (some s)).2 = [k]
      ∧ ∃ pre, (memory_test ram (some s)).2 = pre ++ [Event.free] := by
  have h := memory_test_fail_trace ram s k hk hlow hbad
  have h2 : (memory_test ram (some s)).2
      = [Event.printf Msg.mem_start, Event.malloc 65536]
          ++ (List.range 65536).map (fun i => Event.store i (i % 256))
          ++ (List.range (k + 1)).map Event.load
          ++ [Event.printf (Msg.mem_corruption k), Event.free] := by
    rw [h]
  refine ⟨by rw [h], h2, ?_, ?_, ?_⟩
  · rw [h2, loaded_indices_append, loaded_indices_append, loaded_indices_append,
      loaded_indices_stores, loaded_indices_loads]
    show [] ++ [] ++ List.range (k + 1) ++ [] = List.range (k + 1)
    simp only [List.nil_append, List.append_nil]
  · rw [h2, mem_corruption_logs_append, mem_corruption_logs_append,
      mem_corruption_logs_append, mem_corruption_logs_stores, mem_corruption_logs_loads]
    show [] ++ [] ++ [] ++ [k] = [k]
    rfl
  · refine ⟨[Event.printf Msg.mem_start, Event.malloc 65536]
        ++ (List.range 65536).map (fun i => Event.store i (i % 256))
        ++ (List.range (k + 1)).map Event.load
        ++ [Event.printf (Msg.mem_corruption k)], ?_⟩
    rw [h2, List.append_assoc _ [Event.printf (Msg.mem_corruption k)] [Event.free]]
    rfl

/-- Witness for C6: a RAM whose cell 12345 is stuck at 0 fails at offset 12345. -/
theorem memory_test_fail_fast_witness :
    (memory_test (stuckRam 12345 0) (some (fun _ => 0))).1 = false
      ∧ loaded_indices (memory_test (stuckRam 12345 0) (some (fun _ => 0))).2
          = List.range 12346
      ∧ mem_corruption_logs (memory_test (stuckRam 12345 0) (some (fun _ => 0))).2
          = [12345] := by
  have h := memory_test_fail_fast (stuckRam 12345 0) (fun _ => 0) 12345 (by decide)
    (by
      intro i hi
      rw [stuckRam_load_written 12345 0 _ i (by omega)]
      have : i ≠ 12345 := by omega
      simp [this])
    (by
      rw [stuckRam_load_written 12345 0 _ 12345 (by decide)]
      decide)
  exact ⟨h.1, h.2.2.1, h.2.2.2.1⟩

/-- C8: the write phase of `memory_test` stores `i mod 256` at every index `i < 65536`, the
stored value being unchanged by the conversion to `uint8_t`, and on a faithful RAM the
buffer then holds `i mod 256` at index `i`; in `flash_test` the array `test_data` holds
`j mod 256` at every `j < 4096` after the fill loop, and every buffer handed to
`flash_range_program` is that same 4096-byte pattern, whatever the sector. -/
theorem pattern_determinism {σ τ : Type} (ram : RamDevice σ) (s : σ) (m : Nat → Nat)
    (dev : FlashDevice τ) (fs : τ) (td rb : Nat → Nat) (i j : Nat)
    (hi : i < 65536) (hj : j < 4096) :
    (mem_write_loop ram s 0).2 = (List.range 65536).map (fun i => Event.store i (i % 256))
      ∧ idealRam.load (mem_write_loop idealRam m 0).1 i = i % 256
      ∧ fill_loop td 0 j = j % 256
      ∧ (∃ n, program_data (flash_test dev fs td rb).2 = List.replicate n (pattern 4096))
      ∧ (pattern 4096).length = 4096
      ∧ (pattern 4096)[j]? = some (j % 256) := by
  have hs : SPI_FLASH_SECTOR_SIZE = 4096 := by decide
  refine ⟨?_, idealRam_load_written m i hi, fill_loop_pattern td j (by rw [hs]; exact hj),
    ?_, ?_, ?_⟩
  · rw [mem_write_loop_trace ram 65536 0 s (by decide), ← List.range_eq_range']
  · have h := program_data_flash_test dev fs td rb
    rw [hs] at h
    exact h
  · simp only [pattern, List.length_map, List.length_range]
  · simp only [pattern, List.getElem?_map, List.getElem?_range hj, Option.map_some']

/-- Witness for C8: the last byte of each buffer is 255. -/
theorem pattern_determinism_witness :
    idealRam.load (mem_write_loop idealRam (fun _ => 0) 0).1 65535 = 255
      ∧ fill_loop (fun _ => 0) 0 4095 = 255
      ∧ (pattern 4096)[4095]? = some 255 := by
  have h := pattern_determinism idealRam (fun _ => 0) (fun _ => 0) (norFlash id) (fun _ => 255)
    (fun _ => 0) (fun _ => 0) 65535 4095 (by decide) (by decide)
  exact ⟨h.2.1, h.2.2.1, h.2.2.2.2.2⟩

/-- C2: for `N < 3840` and `j < 4096`, if sweep sectors `0 .. N-1` read back the pattern and
the readback of sector `N` first differs from it at byte `j`, then `flash_test` returns
false, the corruption log names address `1 MiB + N * 4096` and offset `j`, and the value of
`tested_size` given to the "detected actual flash size" log is `N * 4096`. -/
theorem flash_test_reports_first_mismatch {σ : Type} (dev : FlashDevice σ) (s : σ)
    (td rb : Nat → Nat) (N j : Nat) (hN : N < 3840) (hj : j < 4096)
    (hfm : first_mismatch dev s N j) :
    (flash_test dev s td rb).1 = false
      ∧ (flash_test dev s td rb).2
          = Event.printf Msg.flash_start
              :: (sweep_ok_events 0 N
                    ++ sector_fail_events (1048576 + N * 4096) (N * 4096) j)
      ∧ flash_corruption_logs (flash_test dev s td rb).2 = [(1048576 + N * 4096, j)]
      ∧ detected_size_logs (flash_test dev s td rb).2 = [N * 4096] := by
  have h := flash_test_fail_trace dev s td rb N j hN hj hfm
  have h2 := flash_test_fail_shape dev s td rb N j hN hj hfm
  have hl := logs_fail_shape N (N * 4096) j
  rw [← h2, sector_addr_eq] at hl
  exact ⟨by rw [h], by rw [h], hl.1, hl.2⟩

/-- Witness for C2: a part whose byte 7 of sweep sector 256 is stuck at 0 fails at address
2 MiB, offset 7, with 1 MiB reported as detected size. -/
theorem flash_test_reports_first_mismatch_witness :
    (flash_test (stuckFlash (sector_addr 256 + 7) 0) (fun _ => 255) (fun _ => 0)
        (fun _ => 0)).1 = false
      ∧ flash_corruption_logs (flash_test (stuckFlash (sector_addr 256 + 7) 0) (fun _ => 255)
          (fun _ => 0) (fun _ => 0)).2 = [(2097152, 7)]
      ∧ detected_size_logs (flash_test (stuckFlash (sector_addr 256 + 7) 0) (fun _ => 255)
          (fun _ => 0) (fun _ => 0)).2 = [1048576] := by
  have h := flash_test_reports_first_mismatch (stuckFlash (sector_addr 256 + 7) 0)
    (fun _ => 255) (fun _ => 0) (fun _ => 0) 256 7 (by decide) (by decide)
    (stuckFlash_first_mismatch 0 _ 256 7 (by decide) (by decide))
  exact ⟨h.1, h.2.2.1, h.2.2.2⟩

/-- C3: if every sector of the sweep reads back the pattern, `flash_test` returns true after
3840 sector iterations and reports `16 MiB - 1 MiB = 15728640` bytes as total verified size;
conversely, it returns true only if every sector of the sweep read back the pattern. -/
theorem flash_test_full_sweep {σ : Type} (dev : FlashDevice σ) (s : σ) (td rb : Nat → Nat) :
    ((∀ k, k < 3840 → sector_matches dev s k) →
        flash_test dev s td rb
            = (true, Event.printf Msg.flash_start
                :: (sweep_ok_events 0 3840 ++ [Event.printf (Msg.flash_passed 15728640)]))
          ∧ (erase_addrs (flash_test dev s td rb).2).length = 3840)
      ∧ ((flash_test dev s td rb).1 = true → ∀ k, k < 3840 → sector_matches dev s k)
      ∧ MAX_FLASH_SIZE - FLASH_TARGET_OFFSET = 15728640 := by
  refine ⟨?_, ?_, by decide⟩
  · intro hall
    refine ⟨flash_test_pass_trace dev s td rb hall, ?_⟩
    rw [flash_test_pass_shape dev s td rb hall, erase_addrs_pass_shape, List.length_map,
      List.length_range]
  · intro htrue
    rcases sweep_dichotomy dev s with hall | ⟨N, j, hN, hj, hfm⟩
    · exact hall
    · rw [flash_test_fail_trace dev s td rb N j hN hj hfm] at htrue
      exact Bool.noConfusion htrue

/-- Witness for C3: a fault-free part that decodes every address passes the whole sweep. -/
theorem flash_test_full_sweep_witness :
    (flash_test (norFlash id) (fun _ => 255) (fun _ => 0) (fun _ => 0)).1 = true
      ∧ (erase_addrs (flash_test (norFlash id) (fun _ => 255) (fun _ => 0)
          (fun _ => 0)).2).length = 3840 := by
  have h := (flash_test_full_sweep (norFlash id) (fun _ => 255) (fun _ => 0) (fun _ => 0)).1
    (fun k _ => nor_sector_matches id _ k (fun a b _ _ hab => by simpa using hab))
  exact ⟨by rw [h.1], h.2⟩

/-- Counterexample to C4: on a 2 MiB part that wraps addresses modulo its size and stores
data faithfully, `flash_test` does not return false: it returns true and logs neither a
corruption nor a detected flash size. -/
theorem flash_test_misses_aliasing :
    ¬ (flash_test (wrapFlash 2097152) (fun _ => 255) (fun _ => 0) (fun _ => 0)).1 = false
      ∧ (flash_test (wrapFlash 2097152) (fun _ => 255) (fun _ => 0) (fun _ => 0)).1 = true
      ∧ detected_size_logs
          (flash_test (wrapFlash 2097152) (fun _ => 255) (fun _ => 0) (fun _ => 0)).2 = []
      ∧ flash_corruption_logs
          (flash_test (wrapFlash 2097152) (fun _ => 255) (fun _ => 0) (fun _ => 0)).2 = [] := by
  have hall : ∀ k, k < 3840 → sector_matches (wrapFlash 2097152) (fun _ => 255) k :=
    fun k _ => wrapFlash_sector_matches 2097152 (by decide) _ k
  have h := flash_test_pass_trace (wrapFlash 2097152) (fun _ => 255) (fun _ => 0)
    (fun _ => 0) hall
  have h2 := flash_test_pass_shape (wrapFlash 2097152) (fun _ => 255) (fun _ => 0)
    (fun _ => 0) hall
  have hl := logs_pass_shape 3840 15728640
  rw [← h2] at hl
  refine ⟨?_, by rw [h], hl.2, hl.1⟩
  rw [h]
  intro hfalse
  exact Bool.noConfusion hfalse

/-- C4 (amended): on every flash part of physical size `S`, a multiple of 4096 with
`1 MiB < S < 16 MiB`, that wraps the addresses of erase, program and read modulo `S` and
otherwise stores data faithfully, every sector of the sweep reads back the pattern, so
`flash_test` returns true after 3840 sectors and reports 15728640 bytes, logging no detected
flash size.  On any part, `flash_test` returns false only at the first sector whose readback
differs from the pattern, and then reports the pre-failure accumulator as detected size. -/
theorem flash_test_wrapping_part_passes (S : Nat) (hdvd : 4096 ∣ S) (hlo : 1048576 < S)
    (hhi : S < 16777216) (s td rb : Nat → Nat) {σ : Type} (dev : FlashDevice σ) (ds : σ) :
    (∀ k, sector_matches (wrapFlash S) s k)
      ∧ flash_test (wrapFlash S) s td rb
          = (true, Event.printf Msg.flash_start
              :: (sweep_ok_events 0 3840 ++ [Event.printf (Msg.flash_passed 15728640)]))
      ∧ detected_size_logs (flash_test (wrapFlash S) s td rb).2 = []
      ∧ ((flash_test dev ds td rb).1 = false →
          ∃ N j, N < 3840 ∧ j < 4096 ∧ first_mismatch dev ds N j
            ∧ detected_size_logs (flash_test dev ds td rb).2 = [N * 4096]) := by
  have hall : ∀ k, sector_matches (wrapFlash S) s k :=
    fun k => wrapFlash_sector_matches S (by omega) s k
  have h2 := flash_test_pass_shape (wrapFlash S) s td rb (fun k _ => hall k)
  have hl := logs_pass_shape 3840 15728640
  rw [← h2] at hl
  refine ⟨hall, flash_test_pass_trace (wrapFlash S) s td rb (fun k _ => hall k), hl.2, ?_⟩
  intro hfalse
  rcases sweep_dichotomy dev ds with hpass | ⟨N, j, hN, hj, hfm⟩
  · rw [flash_test_pass_trace dev ds td rb hpass] at hfalse
    exact Bool.noConfusion hfalse
  · have h3 := flash_test_fail_shape dev ds td rb N j hN hj hfm
    have hl2 := logs_fail_shape N (N * 4096) j
    rw [← h3] at hl2
    exact ⟨N, j, hN, hj, hfm, hl2.2⟩

/-- Witness for C4 (amended): a wrapping 2 MiB part passes; a part with a stuck byte in
sweep sector 256 fails with 1 MiB as detected size. -/
theorem flash_test_wrapping_part_passes_witness :
    (flash_test (wrapFlash 2097152) (fun _ => 255) (fun _ => 0) (fun _ => 0)).1 = true
      ∧ ∃ N j, N < 3840 ∧ j < 4096
          ∧ first_mismatch (stuckFlash (sector_addr 256 + 7) 0) (fun _ => 255) N j
          ∧ detected_size_logs (flash_test (stuckFlash (sector_addr 256 + 7) 0)
              (fun _ => 255) (fun _ => 0) (fun _ => 0)).2 = [N * 4096] := by
  have h := flash_test_wrapping_part_passes 2097152 (by decide) (by decide) (by decide)
    (fun _ => 255) (fun _ => 0) (fun _ => 0) (stuckFlash (sector_addr 256 + 7) 0)
    (fun _ => 255)
  refine ⟨by rw [h.2.1], h.2.2.2 ?_⟩
  rw [flash_test_fail_trace (stuckFlash (sector_addr 256 + 7) 0) (fun _ => 255) (fun _ => 0)
    (fun _ => 0) 256 7 (by decide) (by decide)
    (stuckFlash_first_mismatch 0 _ 256 7 (by decide) (by decide))]

/-- C5: in every run of `flash_test` the erased addresses are exactly `1 MiB + k * 4096` for
`k = 0 .. n-1`, in increasing order, for some `n ≤ 3840`, each followed by a program and a
readback at the same address; every address given to erase, program or readback is a
multiple of 4096 in `[1 MiB, 16 MiB)`, its 4096-byte region ends at or before 16 MiB, and
advancing the 32-bit cursor from it does not wrap. -/
theorem flash_sweep_addresses {σ : Type} (dev : FlashDevice σ) (s : σ) (td rb : Nat → Nat) :
    (∃ n, n ≤ 3840
        ∧ erase_addrs (flash_test dev s td rb).2
            = (List.range n).map (fun k => 1048576 + k * 4096)
        ∧ flash_ops (flash_test dev s td rb).2 = sweep_ops 0 n)
      ∧ (∀ a, a ∈ flash_addrs (flash_test dev s td rb).2 →
          4096 ∣ a ∧ 1048576 ≤ a ∧ a < 16777216 ∧ a + 4096 ≤ 16777216
            ∧ (a + SPI_FLASH_SECTOR_SIZE) % UINT32_RANGE = a + SPI_FLASH_SECTOR_SIZE) := by
  have harith : ∀ m a, m < 3840 → a = 1048576 + m * 4096 →
      4096 ∣ a ∧ 1048576 ≤ a ∧ a < 16777216 ∧ a + 4096 ≤ 16777216
        ∧ (a + SPI_FLASH_SECTOR_SIZE) % UINT32_RANGE = a + SPI_FLASH_SECTOR_SIZE := by
    intro m a hm ha
    simp only [SPI_FLASH_SECTOR_SIZE, UINT32_RANGE]
    refine ⟨?_, by omega, by omega, by omega, by omega⟩
    exact ⟨256 + m, by omega⟩
  rcases sweep_dichotomy dev s with hall | ⟨N, j, hN, hj, hfm⟩
  · have h := flash_test_pass_shape dev s td rb hall
    refine ⟨⟨3840, le_refl _, ?_, ?_⟩, ?_⟩
    · rw [h, erase_addrs_pass_shape]
    · rw [h, flash_ops_pass_shape]
    · intro a ha
      rw [h] at ha
      obtain ⟨m, hm, hma⟩ := flash_addrs_pass_shape_mem 3840 15728640 a ha
      exact harith m a hm hma
  · have h := flash_test_fail_shape dev s td rb N j hN hj hfm
    refine ⟨⟨N + 1, by omega, ?_, ?_⟩, ?_⟩
    · rw [h, erase_addrs_fail_shape]
    · rw [h, flash_ops_fail_shape]
    · intro a ha
      rw [h] at ha
      obtain ⟨m, hm, hma⟩ := flash_addrs_fail_shape_mem N (N * 4096) j a ha
      exact harith m a (by omega) hma

/-- Witness for C5: on a part whose first swept byte is stuck, the one address used is
1 MiB, and it satisfies the bounds. -/
theorem flash_sweep_addresses_witness :
    1048576 ∈ flash_addrs (flash_test (stuckFlash (sector_addr 0 + 0) 1) (fun _ => 255)
        (fun _ => 0) (fun _ => 0)).2
      ∧ 4096 ∣ 1048576 ∧ 1048576 + 4096 ≤ 16777216 := by
  have hmem : 1048576 ∈ flash_addrs (flash_test (stuckFlash (sector_addr 0 + 0) 1)
      (fun _ => 255) (fun _ => 0) (fun _ => 0)).2 := by
    rw [flash_test_fail_shape (stuckFlash (sector_addr 0 + 0) 1) (fun _ => 255) (fun _ => 0)
      (fun _ => 0) 0 0 (by decide) (by decide)
      (stuckFlash_first_mismatch 1 _ 0 0 (by decide) (by decide))]
    rw [flash_addrs_printf, flash_addrs_append, List.mem_append]
    right
    rw [sector_addr_eq]
    exact List.mem_cons_self _ _
  have h := (flash_sweep_addresses (stuckFlash (sector_addr 0 + 0) 1) (fun _ => 255)
    (fun _ => 0) (fun _ => 0)).2 1048576 hmem
  exact ⟨hmem, h.1, h.2.2.2.1⟩

/-- C10: in every run of `flash_test` the flash operations are, sector by sector from sweep
sector 0, erase, program with the pattern, readback, all at the sector address and over 4096
bytes, for some number `n ≤ 3840` of sectors; when the readback of sector `N` is the first
to mismatch, the operations stop with those of sector `N`: exactly `N + 1` erases and
`N + 1` programs are issued. -/
theorem flash_ops_in_order {σ : Type} (dev : FlashDevice σ) (s : σ) (td rb : Nat → Nat) :
    (∃ n, n ≤ 3840 ∧ flash_ops (flash_test dev s td rb).2 = sweep_ops 0 n)
      ∧ (∀ k d, sweep_ops k (d + 1)
          = [Event.flash_range_erase (1048576 + k * 4096) 4096,
             Event.flash_range_program (1048576 + k * 4096) (pattern 4096) 4096,
             Event.xip_read (1048576 + k * 4096) 4096] ++ sweep_ops (k + 1) d)
      ∧ (∀ N j, N < 3840 → j < 4096 → first_mismatch dev s N j →
          flash_ops (flash_test dev s td rb).2 = sweep_ops 0 (N + 1)
            ∧ (erase_addrs (flash_test dev s td rb).2).length = N + 1
            ∧ (program_data (flash_test dev s td rb).2).length = N + 1) := by
  refine ⟨?_, ?_, ?_⟩
  · rcases sweep_dichotomy dev s with hall | ⟨N, j, hN, hj, hfm⟩
    · exact ⟨3840, le_refl _, by
        rw [flash_test_pass_shape dev s td rb hall, flash_ops_pass_shape]⟩
    · exact ⟨N + 1, by omega, by
        rw [flash_test_fail_shape dev s td rb N j hN hj hfm, flash_ops_fail_shape]⟩
  · intro k d
    have hs : SPI_FLASH_SECTOR_SIZE = 4096 := by decide
    rw [sweep_ops, sector_addr_eq, hs]
  · intro N j hN hj hfm
    have h := flash_test_fail_shape dev s td rb N j hN hj hfm
    refine ⟨by rw [h, flash_ops_fail_shape], ?_, ?_⟩
    · rw [h, erase_addrs_fail_shape, List.length_map, List.length_range]
    · rw [h, program_data_printf, program_data_append, program_data_sweep_ok,
        program_data_sector_fail, List.length_append, List.length_replicate]
      rfl

/-- Witness for C10: with byte 7 of sweep sector 2 stuck, the operations are those of
sweep sectors 0, 1 and 2: three erases and three programs. -/
theorem flash_ops_in_order_witness :
    flash_ops (flash_test (stuckFlash (sector_addr 2 + 7) 0) (fun _ => 255) (fun _ => 0)
        (fun _ => 0)).2 = sweep_ops 0 3
      ∧ (erase_addrs (flash_test (stuckFlash (sector_addr 2 + 7) 0) (fun _ => 255)
          (fun _ => 0) (fun _ => 0)).2).length = 3
      ∧ (program_data (flash_test (stuckFlash (sector_addr 2 + 7) 0) (fun _ => 255)
          (fun _ => 0) (fun _ => 0)).2).length = 3 := by
  exact (flash_ops_in_order (stuckFlash (sector_addr 2 + 7) 0) (fun _ => 255) (fun _ => 0)
    (fun _ => 0)).2.2 2 7 (by decide) (by decide)
    (stuckFlash_first_mismatch 0 _ 2 7 (by decide) (by decide))

end TortureTest
